import Mathlib

/-!
# ChibiOS: MFS result codes and the HAL I/O buffers queues

A shallow embedding of `os/ex/subsystems/mfs/mfs.h` (result codes and their
classification macros) and of `os/hal/src/hal_buffers.c` (input and output
buffers queues), followed by theorems about them.

Conventions of the embedding of `hal_buffers.c`:

* the target is a 32-bit machine: `size_t`, `systime_t` and `msg_t` are 32 bits
  wide and `sizeof (size_t)` is 4; `size_t` and `systime_t` arithmetic is taken
  modulo `4294967296`;
* memory is one flat byte-addressed map; the size field of a buffer is the
  little-endian `size_t` stored in its first four bytes;
* pointers are addresses (natural numbers), `NULL` is address `0`;
* the calling thread is followed sequentially: what other contexts do while
  the thread is suspended in `osalThreadEnqueueTimeoutS` is given by a list of
  wake-ups, and the values read from the system clock by a function of the
  number of the reading;
* `osalDbgCheck` and `osalDbgAssert` are compiled out, as in a release build.
-/

/-! ## mfs.h -/

/-- Type of an MFS error code (`mfs_error_t`). -/
inductive mfs_error_t where
  | MFS_NO_ERROR
  | MFS_REPAIR_WARNING
  | MFS_GC_WARNING
  | MFS_ID_NOT_FOUND
  | MFS_CRC_ERROR
  | MFS_FLASH_FAILURE
  | MFS_INTERNAL_ERROR
deriving DecidableEq

/-- Numeric value of each enumerator of `mfs_error_t`. -/
def mfs_error_t.toInt : mfs_error_t → Int
  | .MFS_NO_ERROR => 0
  | .MFS_REPAIR_WARNING => 1
  | .MFS_GC_WARNING => 2
  | .MFS_ID_NOT_FOUND => -1
  | .MFS_CRC_ERROR => -2
  | .MFS_FLASH_FAILURE => -3
  | .MFS_INTERNAL_ERROR => -4

/-- The macro `MFS_IS_ERROR(err)`, that is `((err) < MFS_NO_ERROR)`. -/
def MFS_IS_ERROR (err : Int) : Bool :=
  decide (err < mfs_error_t.MFS_NO_ERROR.toInt)

/-- The macro `MFS_IS_WARNING(err)`, that is `((err) > MFS_NO_ERROR)`. -/
def MFS_IS_WARNING (err : Int) : Bool :=
  decide (err > mfs_error_t.MFS_NO_ERROR.toInt)

/-! ## hal_buffers.c -/

namespace HalBuffers

/-- Flat byte-addressed memory. -/
abbrev Mem := Nat → Nat

/-- Reading the byte (`uint8_t`) stored at an address. -/
def peek (m : Mem) (a : Nat) : Nat := m a % 256

/-- Writing a byte (`uint8_t`) at an address. -/
def poke (m : Mem) (a b : Nat) : Mem := fun x => if x = a then b % 256 else m x

/-- Reading a `size_t` (four bytes, little endian), as in `*((size_t *)p)`. -/
def loadSize (m : Mem) (a : Nat) : Nat :=
  peek m a + 256 * peek m (a + 1) + 65536 * peek m (a + 2) + 16777216 * peek m (a + 3)

/-- Writing a `size_t` (four bytes, little endian), as in `*((size_t *)p) = v`. -/
def storeSize (m : Mem) (a v : Nat) : Mem :=
  poke (poke (poke (poke m a v) (a + 1) (v / 256)) (a + 2) (v / 65536)) (a + 3) (v / 16777216)

/-- The library function `memcpy(dst, src, n)` on non-overlapping areas. -/
def memcpy (m : Mem) (dst src n : Nat) : Mem :=
  fun x => if dst ≤ x ∧ x < dst + n then peek m (src + (x - dst)) else m x

/-- The `n` bytes stored from address `a` on. -/
def readBytes (m : Mem) (a n : Nat) : List Nat :=
  (List.range n).map (fun i => peek m (a + i))

/-- Storing a byte string from address `a` on. -/
def writeBytes (m : Mem) (a : Nat) : List Nat → Mem
  | [] => m
  | b :: bs => writeBytes (poke m a b) (a + 1) bs

/-- The difference `hi - lo` in 32-bit unsigned arithmetic: of two pointers,
converted to `size_t`, or of two `systime_t` values. -/
def sub32 (hi lo : Nat) : Nat :=
  (((hi : Int) - (lo : Int)) % 4294967296).toNat

/-- The decrement `x--` of a `size_t`, which wraps from zero to the greatest
value. -/
def decSize (x : Nat) : Nat := if x = 0 then 4294967295 else x - 1

/-- Conversion of a `msg_t` to the `size_t` a function returns it as. -/
def msgToSize (msg : Int) : Nat := (msg % 4294967296).toNat

/-- The structure `io_buffers_queue_t`, shared by input and output queues.
The field `waiting` (the queue of suspended threads) is represented by the
list of wake-ups given to the suspending functions. -/
structure io_buffers_queue_t where
  /-- Active buffers counter (`size_t`). -/
  bcounter : Nat
  /-- Buffer write pointer. -/
  bwrptr : Nat
  /-- Buffer read pointer. -/
  brdptr : Nat
  /-- Pointer to the buffers boundary. -/
  btop : Nat
  /-- Size of a buffer slot, size field included. -/
  bsize : Nat
  /-- Number of buffers. -/
  bn : Nat
  /-- Queue of buffer objects. -/
  buffers : Nat
  /-- Pointer for R/W sequential access, `NULL` when there is no current buffer. -/
  ptr : Nat
  /-- Boundary for R/W sequential access. -/
  top : Nat
  /-- Data notification callback (function pointer, `NULL` for none). -/
  notify : Nat
  /-- Application defined field. -/
  link : Nat
deriving DecidableEq

abbrev input_buffers_queue_t := io_buffers_queue_t
abbrev output_buffers_queue_t := io_buffers_queue_t

/-- What `hal.h` declares and `hal_buffers.c` uses without defining it: the
message codes and the queue state predicates. They are a parameter of every
function of the embedding. -/
structure HalDecls where
  MSG_OK : Int
  MSG_TIMEOUT : Int
  MSG_RESET : Int
  ibqIsEmptyI : io_buffers_queue_t → Bool
  ibqIsFullI : io_buffers_queue_t → Bool
  obqIsEmptyI : io_buffers_queue_t → Bool
  obqIsFullI : io_buffers_queue_t → Bool

/-- Modelled from the spec: the declarations of `hal.h` are not under src/;
these are the values ChibiOS gives them. Message codes:
`MSG_OK` is zero, `MSG_TIMEOUT` and `MSG_RESET` are the negative codes -1 and
-2. An input queue is empty when its filled-buffers counter is zero and full
when the write pointer equals the read pointer with a non-zero counter; an
output queue is full when its empty-buffers counter is zero and empty when the
write pointer equals the read pointer with a non-zero counter. -/
def chibios : HalDecls where
  MSG_OK := 0
  MSG_TIMEOUT := -1
  MSG_RESET := -2
  ibqIsEmptyI := fun q => decide (q.bcounter = 0)
  ibqIsFullI := fun q => decide (q.bwrptr = q.brdptr) && decide (q.bcounter ≠ 0)
  obqIsEmptyI := fun q => decide (q.bwrptr = q.brdptr) && decide (q.bcounter ≠ 0)
  obqIsFullI := fun q => decide (q.bcounter = 0)

/-- The state the queue functions act on: the queue object, the memory, and
the number of times the notification callback has been called. -/
structure World where
  q : io_buffers_queue_t
  mem : Mem
  notified : Nat

/-- One return of `osalThreadEnqueueTimeoutS`: the message the thread is
resumed with and what happened to the world while it was suspended. -/
structure Wake where
  msg : Int
  act : World → World

/-- Outcome of a call that may suspend the calling thread. -/
inductive Outcome (α : Type) where
  /-- The call returned a value, leaving a world and the wake-ups not used. -/
  | ret : α → World → List Wake → Outcome α
  /-- The thread was suspended and is never resumed. -/
  | blocked : Outcome α
  /-- The loop was still running when the iteration budget ended. -/
  | nofuel : Outcome α

/-- The function `ibqObjectInit`. -/
def ibqObjectInit (bp size n infy link : Nat) : io_buffers_queue_t where
  bcounter := 0
  brdptr := bp
  bwrptr := bp
  btop := bp + ((size + 4) * n)
  bsize := size + 4
  bn := n
  buffers := bp
  ptr := 0
  top := 0
  notify := infy
  link := link

/-- The function `ibqGetEmptyBufferI`: the returned pointer and the queue. -/
def ibqGetEmptyBufferI (H : HalDecls) (ibqp : input_buffers_queue_t) :
    Nat × input_buffers_queue_t :=
  if H.ibqIsFullI ibqp then (0, ibqp) else (ibqp.bwrptr + 4, ibqp)

/-- The function `ibqPostFullBufferI`. The wake-up of a waiting thread acts
on another thread and leaves the world unchanged. -/
def ibqPostFullBufferI (w : World) (size : Nat) : World :=
  let mem := storeSize w.mem w.q.bwrptr size
  let bwrptr := w.q.bwrptr + w.q.bsize
  { w with
    mem := mem
    q := { w.q with
      bcounter := (w.q.bcounter + 1) % 4294967296
      bwrptr := if bwrptr ≥ w.q.btop then w.q.buffers else bwrptr } }

/-- The end of `ibqGetFullBufferTimeoutS`, setting up the current buffer and
its boundary: `ptr = brdptr + sizeof (size_t); top = ptr + *((size_t *)brdptr);`. -/
def ibqSetCurrent (w : World) : World :=
  let ptr := w.q.brdptr + 4
  { w with q := { w.q with ptr := ptr, top := ptr + loadSize w.mem w.q.brdptr } }

/-- The function `ibqGetFullBufferTimeoutS`; each turn of its loop takes one
wake-up. -/
def ibqGetFullBufferTimeoutS (H : HalDecls) (timeout : Nat) :
    List Wake → World → Outcome Int
  | [], w =>
    if H.ibqIsEmptyI w.q then .blocked
    else .ret H.MSG_OK (ibqSetCurrent w) []
  | k :: wakes, w =>
    if H.ibqIsEmptyI w.q then
      if k.msg < H.MSG_OK then .ret k.msg (k.act w) wakes
      else ibqGetFullBufferTimeoutS H timeout wakes (k.act w)
    else .ret H.MSG_OK (ibqSetCurrent w) (k :: wakes)

/-- The function `ibqReleaseEmptyBufferI`. -/
def ibqReleaseEmptyBufferI (w : World) : World :=
  let brdptr := w.q.brdptr + w.q.bsize
  { w with
    q := { w.q with
      bcounter := decSize w.q.bcounter
      brdptr := if brdptr ≥ w.q.btop then w.q.buffers else brdptr
      ptr := 0 }
    notified := if w.q.notify ≠ 0 then w.notified + 1 else w.notified }

/-- The part of `ibqGetTimeout` after a current buffer is there. -/
def ibqGetByte (w : World) : Int × World :=
  let msg : Int := (peek w.mem w.q.ptr : Nat)
  let w1 := { w with q := { w.q with ptr := w.q.ptr + 1 } }
  if w1.q.ptr ≥ w1.q.top then (msg, ibqReleaseEmptyBufferI w1) else (msg, w1)

/-- The function `ibqGetTimeout`. -/
def ibqGetTimeout (H : HalDecls) (timeout : Nat) (wakes : List Wake) (w : World) :
    Outcome Int :=
  if w.q.ptr = 0 then
    match ibqGetFullBufferTimeoutS H timeout wakes w with
    | .ret msg w1 wakes1 =>
      if msg ≠ H.MSG_OK then .ret msg w1 wakes1
      else .ret (ibqGetByte w1).1 (ibqGetByte w1).2 wakes1
    | .blocked => .blocked
    | .nofuel => .nofuel
  else .ret (ibqGetByte w).1 (ibqGetByte w).2 wakes

/-- What the acquisition step at the head of the loop of `ibqReadTimeout`
and of `obqWriteTimeout` leads to. -/
inductive Acquired where
  /-- There is a current buffer: the loop body goes on. -/
  | go : World → List Wake → Acquired
  /-- The function returns this value. -/
  | stop : Nat → World → List Wake → Acquired
  /-- The thread was suspended and is never resumed. -/
  | blocked : Acquired

/-- The head of the loop body of `ibqReadTimeout`: when there is no current
buffer, the deadline is checked against the clock value `now` and a filled
buffer is acquired. -/
def ibqReadAcquire (H : HalDecls) (deadline timeout now : Nat) (wakes : List Wake)
    (w : World) : Acquired :=
  if w.q.ptr = 0 then
    let next_timeout := sub32 deadline (now % 4294967296)
    if next_timeout > timeout then .stop (msgToSize H.MSG_TIMEOUT) w wakes
    else
      match ibqGetFullBufferTimeoutS H next_timeout wakes w with
      | .ret msg w1 wakes1 =>
        if msg ≠ H.MSG_OK then .stop (msgToSize msg) w1 wakes1 else .go w1 wakes1
      | .blocked => .blocked
      | .nofuel => .blocked
  else .go w wakes

/-- The rest of the loop body of `ibqReadTimeout`, once there is a current
buffer: the size of the chunk copied into the caller's area at `bp` and the
world after the copy, the buffer being released when it has been finished. -/
def ibqReadChunk (w1 : World) (bp n r : Nat) : Nat × World :=
  let size0 := sub32 w1.q.top w1.q.ptr
  let size := if size0 > n - r then n - r else size0
  let mem := memcpy w1.mem bp w1.q.ptr size
  let w2 := { w1 with mem := mem, q := { w1.q with ptr := w1.q.ptr + size } }
  (size, if w2.q.ptr ≥ w2.q.top then ibqReleaseEmptyBufferI w2 else w2)

/-- The loop `while (r < n)` of `ibqReadTimeout`. The first argument bounds
the number of turns; `reads` counts the readings of the system clock made in
the loop, the reading of number `k` giving `clock k`. -/
def ibqReadLoop (H : HalDecls) (clock : Nat → Nat) (deadline timeout n : Nat) :
    Nat → Nat → Nat → Nat → List Wake → World → Outcome Nat
  | 0, _, r, _, wakes, w => if r < n then .nofuel else .ret r w wakes
  | fuel + 1, reads, r, bp, wakes, w =>
    if r < n then
      match ibqReadAcquire H deadline timeout (clock reads) wakes w with
      | .blocked => .blocked
      | .stop v w1 wakes1 => .ret v w1 wakes1
      | .go w1 wakes1 =>
        let size := (ibqReadChunk w1 bp n r).1
        ibqReadLoop H clock deadline timeout n fuel
          (if w.q.ptr = 0 then reads + 1 else reads) ((r + size) % 4294967296) (bp + size)
          wakes1 (ibqReadChunk w1 bp n r).2
    else .ret r w wakes

/-- The function `ibqReadTimeout`. The clock reading of number 0 is the one
that fixes the deadline. -/
def ibqReadTimeout (H : HalDecls) (clock : Nat → Nat) (fuel : Nat) (wakes : List Wake)
    (w : World) (bp n timeout : Nat) : Outcome Nat :=
  let deadline := (clock 0 % 4294967296 + timeout) % 4294967296
  ibqReadLoop H clock deadline timeout n fuel 1 0 bp wakes w

/-- The function `obqObjectInit`. -/
def obqObjectInit (bp size n onfy link : Nat) : io_buffers_queue_t where
  bcounter := n
  brdptr := bp
  bwrptr := bp
  btop := bp + ((size + 4) * n)
  bsize := size + 4
  bn := n
  buffers := bp
  ptr := 0
  top := 0
  notify := onfy
  link := link

/-- The function `obqGetFullBufferI`: the returned pointer, the value left in
`*sizep` (none when it is not written) and the queue. -/
def obqGetFullBufferI (H : HalDecls) (w : World) : Nat × Option Nat × World :=
  if H.obqIsEmptyI w.q then (0, none, w)
  else (w.q.brdptr + 4, some (loadSize w.mem w.q.brdptr), w)

/-- The function `obqReleaseEmptyBufferI`. -/
def obqReleaseEmptyBufferI (w : World) : World :=
  let brdptr := w.q.brdptr + w.q.bsize
  { w with
    q := { w.q with
      bcounter := (w.q.bcounter + 1) % 4294967296
      brdptr := if brdptr ≥ w.q.btop then w.q.buffers else brdptr } }

/-- The end of `obqGetEmptyBufferTimeoutS`, setting up the current buffer and
its boundary: `ptr = brdptr + sizeof (size_t); top = ptr + *((size_t *)brdptr);`. -/
def obqSetCurrent (w : World) : World :=
  let ptr := w.q.brdptr + 4
  { w with q := { w.q with ptr := ptr, top := ptr + loadSize w.mem w.q.brdptr } }

/-- The function `obqGetEmptyBufferTimeoutS`; each turn of its loop takes one
wake-up. -/
def obqGetEmptyBufferTimeoutS (H : HalDecls) (timeout : Nat) :
    List Wake → World → Outcome Int
  | [], w =>
    if H.obqIsEmptyI w.q then .blocked
    else .ret H.MSG_OK (obqSetCurrent w) []
  | k :: wakes, w =>
    if H.obqIsEmptyI w.q then
      if k.msg < H.MSG_OK then .ret k.msg (k.act w) wakes
      else obqGetEmptyBufferTimeoutS H timeout wakes (k.act w)
    else .ret H.MSG_OK (obqSetCurrent w) (k :: wakes)

/-- The function `obqPostFullBufferI`. -/
def obqPostFullBufferI (w : World) (size : Nat) : World :=
  let mem := storeSize w.mem w.q.bwrptr size
  let bwrptr := w.q.bwrptr + w.q.bsize
  { w with
    mem := mem
    q := { w.q with
      bcounter := decSize w.q.bcounter
      bwrptr := if bwrptr ≥ w.q.btop then w.q.buffers else bwrptr
      ptr := 0 }
    notified := if w.q.notify ≠ 0 then w.notified + 1 else w.notified }

/-- The part of `obqPutTimeout` after a current buffer is there:
`obqp->bcounter--; *obqp->bwrptr++ = b;` and the test that posts the buffer. -/
def obqPutByte (w : World) (b : Nat) : World :=
  let w1 := { w with
    mem := poke w.mem w.q.bwrptr b
    q := { w.q with
      bcounter := decSize w.q.bcounter
      bwrptr := w.q.bwrptr + 1 } }
  if w1.q.ptr ≥ w1.q.top then obqPostFullBufferI w1 w1.q.bsize else w1

/-- The function `obqPutTimeout`. -/
def obqPutTimeout (H : HalDecls) (timeout : Nat) (wakes : List Wake) (w : World)
    (b : Nat) : Outcome Int :=
  if w.q.ptr = 0 then
    match obqGetEmptyBufferTimeoutS H timeout wakes w with
    | .ret msg w1 wakes1 =>
      if msg ≠ H.MSG_OK then .ret msg w1 wakes1
      else .ret H.MSG_OK (obqPutByte w1 b) wakes1
    | .blocked => .blocked
    | .nofuel => .nofuel
  else .ret H.MSG_OK (obqPutByte w b) wakes

/-- The head of the loop body of `obqWriteTimeout`: when there is no current
buffer, the deadline is checked against the clock value `now` and an empty
buffer is acquired. -/
def obqWriteAcquire (H : HalDecls) (deadline timeout now : Nat) (wakes : List Wake)
    (w : World) : Acquired :=
  if w.q.ptr = 0 then
    let next_timeout := sub32 deadline (now % 4294967296)
    if next_timeout > timeout then .stop (msgToSize H.MSG_TIMEOUT) w wakes
    else
      match obqGetEmptyBufferTimeoutS H next_timeout wakes w with
      | .ret msg w1 wakes1 =>
        if msg ≠ H.MSG_OK then .stop (msgToSize msg) w1 wakes1 else .go w1 wakes1
      | .blocked => .blocked
      | .nofuel => .blocked
  else .go w wakes

/-- The rest of the loop body of `obqWriteTimeout`, once there is a current
buffer: the size of the chunk copied from the caller's area at `bp` and the
world after the copy, the buffer being posted when it has been finished. -/
def obqWriteChunk (w1 : World) (bp n r : Nat) : Nat × World :=
  let size0 := sub32 w1.q.top w1.q.ptr
  let size := if size0 > n - r then n - r else size0
  let mem := memcpy w1.mem w1.q.ptr bp size
  let w2 := { w1 with mem := mem, q := { w1.q with ptr := w1.q.ptr + size } }
  (size, if w2.q.ptr ≥ w2.q.top then obqPostFullBufferI w2 w2.q.bsize else w2)

/-- The loop `while (r < n)` of `obqWriteTimeout`, with the conventions of
`ibqReadLoop`. -/
def obqWriteLoop (H : HalDecls) (clock : Nat → Nat) (deadline timeout n : Nat) :
    Nat → Nat → Nat → Nat → List Wake → World → Outcome Nat
  | 0, _, r, _, wakes, w => if r < n then .nofuel else .ret r w wakes
  | fuel + 1, reads, r, bp, wakes, w =>
    if r < n then
      match obqWriteAcquire H deadline timeout (clock reads) wakes w with
      | .blocked => .blocked
      | .stop v w1 wakes1 => .ret v w1 wakes1
      | .go w1 wakes1 =>
        let size := (obqWriteChunk w1 bp n r).1
        obqWriteLoop H clock deadline timeout n fuel
          (if w.q.ptr = 0 then reads + 1 else reads) ((r + size) % 4294967296) (bp + size)
          wakes1 (obqWriteChunk w1 bp n r).2
    else .ret r w wakes

/-- The function `obqWriteTimeout`. The clock reading of number 0 is the one
that fixes the deadline. -/
def obqWriteTimeout (H : HalDecls) (clock : Nat → Nat) (fuel : Nat) (wakes : List Wake)
    (w : World) (bp n timeout : Nat) : Outcome Nat :=
  let deadline := (clock 0 % 4294967296 + timeout) % 4294967296
  obqWriteLoop H clock deadline timeout n fuel 1 0 bp wakes w

/-! ### Observations and specification vocabulary -/

/-- The value a call returned, if it returned. -/
def Outcome.value {α : Type} : Outcome α → Option α
  | .ret v _ _ => some v
  | _ => none

/-- The world a call left, if it returned. -/
def Outcome.world {α : Type} : Outcome α → Option World
  | .ret _ w _ => some w
  | _ => none

/-- The number of wake-ups a call left unused, if it returned. -/
def Outcome.wakesLeft {α : Type} : Outcome α → Option Nat
  | .ret _ _ wakes => some wakes.length
  | _ => none

/-- A number of consecutive calls of `ibqGetTimeout`, with the list of the
values they returned. -/
def ibqGetTimeoutN (H : HalDecls) (timeout : Nat) :
    Nat → List Wake → World → Outcome (List Int)
  | 0, wakes, w => .ret [] w wakes
  | k + 1, wakes, w =>
    match ibqGetTimeoutN H timeout k wakes w with
    | .ret vs w1 wakes1 =>
      match ibqGetTimeout H timeout wakes1 w1 with
      | .ret v w2 wakes2 => .ret (vs ++ [v]) w2 wakes2
      | .blocked => .blocked
      | .nofuel => .nofuel
    | .blocked => .blocked
    | .nofuel => .nofuel

/-- The slot that follows the slot at `p` in the ring of buffers, as in
`p += bsize; if (p >= btop) p = buffers;`. -/
def nextSlot (q : io_buffers_queue_t) (p : Nat) : Nat :=
  if p + q.bsize ≥ q.btop then q.buffers else p + q.bsize

/-- The buffers found from slot `p` on by following `next` were posted with
the lengths of the byte strings `bufs` as sizes and hold these strings. -/
def FilledFrom (m : Mem) (next : Nat → Nat) : Nat → List (List Nat) → Prop
  | _, [] => True
  | p, d :: ds =>
    loadSize m p = d.length ∧ readBytes m (p + 4) d.length = d ∧ FilledFrom m next (next p) ds

/-- The area of `n` bytes at `bp` meets none of the buffers found from slot
`p` on, size fields included. -/
def ApartFrom (bp n : Nat) (next : Nat → Nat) : Nat → List (List Nat) → Prop
  | _, [] => True
  | p, d :: ds => (p + 4 + d.length ≤ bp ∨ bp + n ≤ p) ∧ ApartFrom bp n next (next p) ds

/-- Whether a call ended with the thread suspended for ever. -/
def Outcome.isBlocked {α : Type} : Outcome α → Bool
  | .blocked => true
  | _ => false

/-- The world while the oldest filled buffer, posted with size `s`, is the
current buffer and `j` of its bytes have been read; for `j = 0` no buffer has
been acquired yet. -/
def holding (w : World) (s j : Nat) : World :=
  if j = 0 then w
  else { w with q := { w.q with ptr := w.q.brdptr + 4 + j, top := w.q.brdptr + 4 + s } }

/-! ### Sample states -/

/-- Memory holding zero everywhere. -/
def zeroMem : Mem := fun _ => 0

/-- An input queue of two buffers of two bytes at address 1000 in which a
driver has filled and posted the buffers `[65, 66]` and `[67, 68]`. -/
def ibqSample : World :=
  let w0 : World := ⟨ibqObjectInit 1000 2 2 0 0, zeroMem, 0⟩
  let w1 := ibqPostFullBufferI { w0 with mem := writeBytes w0.mem 1004 [65, 66] } 2
  ibqPostFullBufferI { w1 with mem := writeBytes w1.mem 1010 [67, 68] } 2

/-- An input queue of two buffers of two bytes at address 1000, just
initialised: it holds no filled buffer. -/
def ibqFresh : World := ⟨ibqObjectInit 1000 2 2 0 0, zeroMem, 0⟩

/-- The input queue `ibqFresh` after a driver posted a buffer holding the one
byte `65` and the application read it with `ibqGetTimeout`: the queue is empty
again. -/
def ibqDrained : World :=
  let w1 := ibqPostFullBufferI { ibqFresh with mem := writeBytes ibqFresh.mem 1004 [65] } 1
  match ibqGetTimeout chibios 0 [] w1 with
  | .ret _ w2 _ => w2
  | _ => w1

/-- An output queue of one buffer of two bytes at address 1000, just
initialised; the bytes `[65, 66]` to be written are at address 5000. -/
def obqFresh : World := ⟨obqObjectInit 1000 2 1 0 0, writeBytes zeroMem 5000 [65, 66], 0⟩

/-- The output queue of `obqFresh` with its buffer acquired as the current
buffer: `ptr` at the beginning and `top` at the end of its data area. -/
def obqCurrent : World :=
  { obqFresh with q := { obqFresh.q with ptr := 1004, top := 1006 } }

/-- The output queue of `obqFresh` with its buffer current and one byte of
room left in it. -/
def obqLastByte : World :=
  { obqFresh with q := { obqFresh.q with ptr := 1005, top := 1006 } }

/-- A wake-up by timeout: the message is `MSG_TIMEOUT`, nothing else changed. -/
def timeoutWake : Wake := ⟨chibios.MSG_TIMEOUT, fun w => w⟩

/-- A clock that shows 0 at its readings 0 and 1 and has advanced by one tick
at the reading 2. -/
def tickingClock : Nat → Nat := fun k => if k = 2 then 1 else 0

end HalBuffers

/-! ## mfs.h: constants, settings and the layout of the bank header -/

/-- The constant `MFS_BANK_MAGIC_1`. -/
def MFS_BANK_MAGIC_1 : Nat := 0xEC705ADE

/-- The constant `MFS_BANK_MAGIC_2`. -/
def MFS_BANK_MAGIC_2 : Nat := 0xF0339CC5

/-- The constant `MFS_HEADER_MAGIC`. -/
def MFS_HEADER_MAGIC : Nat := 0x5FAE

/-- The setting `MFS_CFG_ID_CACHE_SIZE` after the block
`#if !defined(MFS_CFG_ID_CACHE_SIZE) || defined(__DOXIGEN__)`: `user` is the
value defined before the header is read, if any, and `doxigen` tells whether
the symbol tested by the block is defined. -/
def MFS_CFG_ID_CACHE_SIZE (user : Option Int) (doxigen : Bool) : Int :=
  match user, doxigen with
  | some v, false => v
  | _, _ => 16

/-- The setting `MFS_CFG_MAX_REPAIR_ATTEMPTS`, with the conventions of
`MFS_CFG_ID_CACHE_SIZE`. -/
def MFS_CFG_MAX_REPAIR_ATTEMPTS (user : Option Int) (doxigen : Bool) : Int :=
  match user, doxigen with
  | some v, false => v
  | _, _ => 3

/-- The setting `MFS_CFG_WRITE_VERIFY`, with the conventions of
`MFS_CFG_ID_CACHE_SIZE`; `TRUE` is the boolean `true`. -/
def MFS_CFG_WRITE_VERIFY (user : Option Bool) (doxigen : Bool) : Bool :=
  match user, doxigen with
  | some v, false => v
  | _, _ => true

/-- The check `#if MFS_CFG_ID_CACHE_SIZE < 0` followed by `#error`: whether
the value stops the compilation. -/
def cacheSizeRejected (c : Int) : Bool := decide (c < 0)

/-- The check
`#if (MFS_CFG_MAX_REPAIR_ATTEMPTS < 1) || (MFS_CFG_MAX_REPAIR_ATTEMPTS > 10)`
followed by `#error`: whether the value stops the compilation. -/
def repairAttemptsRejected (v : Int) : Bool := decide (v < 1) || decide (v > 10)

/-- The condition `#if (MFS_CFG_ID_CACHE_SIZE > 0) || defined(__DOXYGEN__)`
that guards the cache types and the fields `cache_header` and `cache_buffer`
of `MFSDriver`. -/
def cacheFieldsCompiled (c : Int) (doxygen : Bool) : Bool := decide (c > 0) || doxygen

/-- The scalar types of the fields of `mfs_bank_header_t`. -/
inductive CType where
  | uint16_t
  | uint32_t
  | flash_offset_t
deriving DecidableEq

/-- Size in bytes of a scalar type. Modelled from the spec: `flash_offset_t` is
declared in `hal_flash.h`, which is not under src/; the layout of the
specification gives the field `next` as `u32`. -/
def CType.sizeof : CType → Nat
  | .uint16_t => 2
  | .uint32_t => 4
  | .flash_offset_t => 4

/-- The names of the fields of `mfs_bank_header_t`. -/
inductive BankHeaderField where
  | magic1
  | magic2
  | counter
  | next
  | crc
deriving DecidableEq

/-- The declaration of `mfs_bank_header_t`: its fields and their types, in
the order of the declaration. -/
def mfs_bank_header_t_decl : List (BankHeaderField × CType) :=
  [(.magic1, .uint32_t), (.magic2, .uint32_t), (.counter, .uint32_t),
   (.next, .flash_offset_t), (.crc, .uint16_t)]

/-- The number of bytes taken by the fields of a declaration, padding apart. -/
def fieldsBytes {α : Type} (decl : List (α × CType)) : Nat :=
  (decl.map (fun f => f.2.sizeof)).sum

/-- The fields declared before the field `f`. -/
def fieldsBefore {α : Type} [DecidableEq α] (decl : List (α × CType)) (f : α) :
    List (α × CType) :=
  decl.takeWhile (fun g => decide (g.1 ≠ f))

/-- Rounding `x` up to a multiple of `a`. -/
def alignUp (a x : Nat) : Nat := (x + a - 1) / a * a

/-- The offsets a C compiler gives to the fields of a structure when each
scalar is aligned to its size, starting at offset `cur`. -/
def fieldOffsets {α : Type} : List (α × CType) → Nat → List (α × Nat)
  | [], _ => []
  | (f, t) :: rest, cur =>
    (f, alignUp t.sizeof cur) :: fieldOffsets rest (alignUp t.sizeof cur + t.sizeof)

/-- The offset of the first byte after the last field. -/
def fieldsEnd {α : Type} : List (α × CType) → Nat → Nat
  | [], cur => cur
  | (_, t) :: rest, cur => fieldsEnd rest (alignUp t.sizeof cur + t.sizeof)

/-- The value of `sizeof` for a structure: the end of the last field rounded
up to the greatest alignment of a field. -/
def structSizeof {α : Type} (decl : List (α × CType)) : Nat :=
  alignUp ((decl.map (fun f => f.2.sizeof)).foldl max 1) (fieldsEnd decl 0)

/-! ## The record store of mfs.h, modelled from the specification -/

namespace MFS

/-- Type of a flash bank (`mfs_bank_t`). -/
inductive mfs_bank_t where
  | MFS_BANK_0
  | MFS_BANK_1
deriving DecidableEq

/-- Type of driver state machine states (`mfs_state_t`). -/
inductive mfs_state_t where
  | MFS_UNINIT
  | MFS_STOP
  | MFS_READY
  | MFS_MOUNTED
  | MFS_ACTIVE
deriving DecidableEq

/-- Type of a bank header (`mfs_bank_header_t`). -/
structure mfs_bank_header_t where
  /-- Bank magic 1. -/
  magic1 : Nat
  /-- Bank magic 2. -/
  magic2 : Nat
  /-- Usage counter of the bank. -/
  counter : Nat
  /-- First data element. -/
  next : Nat
  /-- Header CRC. -/
  crc : Nat
deriving DecidableEq

/-- Type of a data block header (`mfs_data_header_t`). -/
structure mfs_data_header_t where
  /-- Data header magic. -/
  magic : Nat
  /-- Data CRC. -/
  crc : Nat
  /-- Data identifier. -/
  id : Nat
  /-- Data size for forward scan. -/
  size : Nat
  /-- Address of the previous header or zero if none. -/
  prev_header : Nat
deriving DecidableEq

/-- Type of an element of the record identifiers cache (`mfs_cached_id_t`).
The links `lru_next` and `lru_prev` are the position of the element in the
list that represents the cache. -/
structure mfs_cached_id_t where
  /-- Identifier of the cached element. -/
  id : Nat
  /-- Data address of the cached element. -/
  offset : Nat
  /-- Data size of the cached element. -/
  size : Nat
deriving DecidableEq

/-- Type of an MFS instance (`MFSDriver`). The field `config` names the flash
device and the sectors of the banks, which are the component `flash` of a
`System`; the fields `cache_header` and `cache_buffer` are the list `cache`,
most recently used element first. -/
structure MFSDriver where
  /-- Driver state. -/
  state : mfs_state_t
  /-- Bank currently in use. -/
  current_bank : mfs_bank_t
  /-- Size in bytes of banks. -/
  banks_size : Nat
  /-- Pointer to the next free position in the current bank. -/
  next_offset : Nat
  /-- Pointer to the last header in the list or zero. -/
  last_offset : Nat
  /-- Used space in the current bank. -/
  used_space : Nat
  /-- The cache LRU list. -/
  cache : List mfs_cached_id_t

/-- Modelled from the spec: the contents of the flash are not part of mfs.h.
One log entry: a record header and the payload that follows it. The bytes of
an entry are kept as the entry itself, the serialisation of headers being the
bijection the specification asks for. -/
structure Record where
  hdr : mfs_data_header_t
  payload : List Nat
deriving DecidableEq

/-- Modelled from the spec: the contents of one bank of the flash, which are
not part of mfs.h. `header` is the bank header, if the header area is not
erased; `data o` is the entry whose header starts at the offset `o` of the
bank, if one was programmed there since the bank was erased. -/
structure Bank where
  header : Option mfs_bank_header_t
  data : Nat → Option Record

/-- Modelled from the spec: the two banks of the flash device, which is not
part of mfs.h. The device is reliable: what is programmed at an offset is
what is read there, so that the read-back verification never fails. -/
structure Flash where
  bank0 : Bank
  bank1 : Bank

/-- The engine: the driver instance and the flash device it owns. -/
structure System where
  drv : MFSDriver
  flash : Flash

/-- Modelled from the spec: what the specification leaves to the flash
adapter and to the configuration, none of which is under src/: the capacity of
the cache (`ID_CACHE_SIZE`), the page size to which the bank header is padded,
the program granularity to which entries are padded, and the function
`crc16`. -/
structure Env where
  cacheSize : Nat
  page : Nat
  gran : Nat
  crc16 : List Nat → Nat

/-- The other bank. -/
def mfs_bank_t.other : mfs_bank_t → mfs_bank_t
  | .MFS_BANK_0 => .MFS_BANK_1
  | .MFS_BANK_1 => .MFS_BANK_0

/-- The contents of a bank of the device. -/
def Flash.bank (f : Flash) : mfs_bank_t → Bank
  | .MFS_BANK_0 => f.bank0
  | .MFS_BANK_1 => f.bank1

/-- The device with the contents of one bank replaced. -/
def Flash.setBank (f : Flash) (b : mfs_bank_t) (x : Bank) : Flash :=
  match b with
  | .MFS_BANK_0 => { f with bank0 := x }
  | .MFS_BANK_1 => { f with bank1 := x }

/-- Modelled from the spec: an erased bank (every byte reads 0xFF), the
result of the operation `erase_sector` of the flash adapter on all its
sectors. -/
def erasedBank : Bank := ⟨none, fun _ => none⟩

/-- The four bytes of a 32-bit value, little endian. -/
def le32 (v : Nat) : List Nat :=
  [v % 256, v / 256 % 256, v / 65536 % 256, v / 16777216 % 256]

/-- Modelled from the spec: the size of the bank header and of a record
header on the flash, 16 bytes each in the layout of the specification. -/
def headerSize : Nat := 16

/-- Modelled from the spec: the offset of the first record header of a bank,
the header size padded to the page boundary. -/
def dataStart (T : Env) : Nat := alignUp T.page headerSize

/-- Modelled from the spec: the space an entry with a payload of `n` bytes
takes in the log, header and payload padded to the program granularity. -/
def recordSpace (T : Env) (n : Nat) : Nat := alignUp T.gran (headerSize + n)

/-- Modelled from the spec: the value of the field `crc` of a bank header,
the CRC-16 of the fields that precede it. -/
def bankHeaderCrc (T : Env) (counter next : Nat) : Nat :=
  T.crc16 (le32 MFS_BANK_MAGIC_1 ++ le32 MFS_BANK_MAGIC_2 ++ le32 counter ++ le32 next)

/-- Modelled from the spec: the bank header programmed when a bank becomes
the current bank, with the chosen counter and `next` at the start of the
data. -/
def newBankHeader (T : Env) (counter : Nat) : mfs_bank_header_t :=
  { magic1 := MFS_BANK_MAGIC_1
    magic2 := MFS_BANK_MAGIC_2
    counter := counter
    next := dataStart T
    crc := bankHeaderCrc T counter (dataStart T) }

/-- Modelled from the spec: the usage counter read from a bank, zero when the
bank has no header. -/
def bankCounter (b : Bank) : Nat :=
  match b.header with
  | some h => h.counter
  | none => 0

/-! ### The record index -/

/-- Modelled from the spec: cache lookup by identifier. -/
def cacheLookup (c : List mfs_cached_id_t) (id : Nat) : Option mfs_cached_id_t :=
  c.find? (fun x => decide (x.id = id))

/-- Modelled from the spec: removal of an identifier from the cache. -/
def cacheRemove (c : List mfs_cached_id_t) (id : Nat) : List mfs_cached_id_t :=
  c.filter (fun x => decide (x.id ≠ id))

/-- Modelled from the spec: insertion in the cache as the most recently used
element; an older element of the same identifier is replaced and, when the
capacity is exceeded, the least recently used element is evicted. -/
def cacheInsert (cap : Nat) (c : List mfs_cached_id_t) (x : mfs_cached_id_t) :
    List mfs_cached_id_t :=
  (x :: cacheRemove c x.id).take cap

/-- Modelled from the spec: the backward walk of the header chain from the
header at `off` via `prev_header`, taking the first header of the identifier.
The walk ends at the offset zero; the first argument bounds its length. -/
def backwardWalk (data : Nat → Option Record) (id : Nat) : Nat → Nat → Option (Nat × Record)
  | 0, _ => none
  | fuel + 1, off =>
    if off = 0 then none
    else
      match data off with
      | none => none
      | some r =>
        if r.hdr.id = id then some (off, r)
        else backwardWalk data id fuel r.hdr.prev_header

/-- Modelled from the spec: the lookup of a record, in the cache and on a
miss by the backward walk from `last_offset`, whose result is inserted in the
cache. A header of size zero is an erase marker: its identifier is not live
and the lookup finds nothing. -/
def findRecord (T : Env) (s : System) (id : Nat) : Option mfs_cached_id_t × System :=
  match cacheLookup s.drv.cache id with
  | some c => (some c, { s with drv := { s.drv with cache := cacheInsert T.cacheSize s.drv.cache c } })
  | none =>
    match backwardWalk (s.flash.bank s.drv.current_bank).data id (s.drv.last_offset + 1)
        s.drv.last_offset with
    | none => (none, s)
    | some (off, r) =>
      if r.hdr.size = 0 then (none, s)
      else
        (some ⟨id, off, r.hdr.size⟩,
          { s with drv := { s.drv with
              cache := cacheInsert T.cacheSize s.drv.cache ⟨id, off, r.hdr.size⟩ } })

/-! ### The record API -/

/-- Modelled from the spec: `mfsReadRecord`, declared in mfs.h and defined in
mfs.c, which is not under src/. The result is the status, the engine, and what
was written to `*np` and to the buffer, if anything was. An offset at which
nothing was programmed holds no payload whose CRC verifies. -/
def mfsReadRecord (T : Env) (s : System) (id : Nat) :
    mfs_error_t × System × Option (Nat × List Nat) :=
  match findRecord T s id with
  | (none, s1) => (.MFS_ID_NOT_FOUND, s1, none)
  | (some c, s1) =>
    match (s1.flash.bank s1.drv.current_bank).data c.offset with
    | none => (.MFS_CRC_ERROR, s1, none)
    | some r =>
      if T.crc16 r.payload = r.hdr.crc then (.MFS_NO_ERROR, s1, some (r.hdr.size, r.payload))
      else (.MFS_CRC_ERROR, s1, none)

/-- Modelled from the spec: whether an entry with a payload of `n` bytes fits
in the space that remains in the current bank. -/
def fits (T : Env) (s : System) (n : Nat) : Bool :=
  decide (s.drv.next_offset + recordSpace T n ≤ s.drv.banks_size)

/-- Modelled from the spec: programming of a header and its payload at
`next_offset` with `prev_header = last_offset`, followed by the update of
`last_offset`, `next_offset` and `used_space`. -/
def appendRecord (T : Env) (s : System) (id : Nat) (payload : List Nat) : System :=
  let off := s.drv.next_offset
  let r : Record :=
    { hdr := { magic := MFS_HEADER_MAGIC, crc := T.crc16 payload, id := id,
               size := payload.length, prev_header := s.drv.last_offset }
      payload := payload }
  let bank := s.flash.bank s.drv.current_bank
  { drv := { s.drv with
      last_offset := off
      next_offset := off + recordSpace T payload.length
      used_space := s.drv.used_space + recordSpace T payload.length }
    flash := s.flash.setBank s.drv.current_bank
      { bank with data := fun o => if o = off then some r else bank.data o } }

/-- Modelled from the spec: the records met by a scan of a bank from the
offset `off`, in log order: the scan accepts the entries one after the other
and stops at an erased header, at a header out of the bank, at a wrong magic
or at a payload whose CRC is wrong. The first argument bounds its length. -/
def scanFrom (T : Env) (size : Nat) (data : Nat → Option Record) : Nat → Nat → List Record
  | 0, _ => []
  | fuel + 1, off =>
    match data off with
    | none => []
    | some r =>
      if r.hdr.magic = MFS_HEADER_MAGIC ∧ T.crc16 r.payload = r.hdr.crc ∧
          r.payload.length = r.hdr.size ∧ off + recordSpace T r.hdr.size ≤ size then
        r :: scanFrom T size data fuel (off + recordSpace T r.hdr.size)
      else []

/-- Modelled from the spec: the offset at which the scan of a bank starts,
the field `next` of its header. -/
def scanStart (T : Env) (b : Bank) : Nat :=
  match b.header with
  | some h => h.next
  | none => dataStart T

/-- Modelled from the spec: the live view built by a compaction from the
headers in scan order: for each identifier only the last header is kept, and
the identifiers whose last header is an erase marker (size zero) are
dropped. -/
def liveRecords : List Record → List Record
  | [] => []
  | r :: rest =>
    if r.hdr.size = 0 ∨ rest.any (fun x => decide (x.hdr.id = r.hdr.id)) = true then
      liveRecords rest
    else r :: liveRecords rest

/-- Modelled from the spec: appending the live records to the destination
bank in chronological order, with the update of the index; nothing when a
record does not fit. -/
def copyRecords (T : Env) : List Record → System → Option System
  | [], s => some s
  | r :: rest, s =>
    if fits T s r.payload.length then
      let s1 := appendRecord T s r.hdr.id r.payload
      copyRecords T rest { s1 with drv := { s1.drv with
        cache := cacheInsert T.cacheSize s1.drv.cache
          ⟨r.hdr.id, s.drv.next_offset, r.payload.length⟩ } }
    else none

/-- Modelled from the spec: the operation Compact from the current bank to
the other bank: the counter of the destination is chosen, the destination is
erased and receives its header, the live records of the source are appended to
it, the source is erased and the destination becomes the current bank. Nothing
when a live record does not fit in the destination. -/
def compact (T : Env) (s : System) : Option System :=
  let src := s.drv.current_bank
  let dst := src.other
  let counter := max (bankCounter (s.flash.bank src)) (bankCounter (s.flash.bank dst)) + 1
  let live := liveRecords (scanFrom T s.drv.banks_size (s.flash.bank src).data
    s.drv.banks_size (scanStart T (s.flash.bank src)))
  let s0 : System :=
    { drv := { s.drv with
        current_bank := dst
        next_offset := dataStart T
        last_offset := 0
        used_space := 0
        cache := [] }
      flash := s.flash.setBank dst { header := some (newBankHeader T counter), data := fun _ => none } }
  match copyRecords T live s0 with
  | none => none
  | some s1 => some { s1 with flash := s1.flash.setBank src erasedBank }

/-- Modelled from the spec: the writing of an entry with the space
accounting and the bank swap of `update`: when the entry does not fit in the
current bank a compaction to the other bank is run first, and when it still
does not fit the operation fails with `MFS_FLASH_FAILURE`. -/
def writeRecord (T : Env) (s : System) (id : Nat) (payload : List Nat) :
    mfs_error_t × System :=
  if fits T s payload.length then (.MFS_NO_ERROR, appendRecord T s id payload)
  else
    match compact T s with
    | none => (.MFS_FLASH_FAILURE, s)
    | some s1 =>
      if fits T s1 payload.length then (.MFS_GC_WARNING, appendRecord T s1 id payload)
      else (.MFS_FLASH_FAILURE, s1)

/-- Modelled from the spec: `mfsUpdateRecord`, declared in mfs.h and defined
in mfs.c, which is not under src/. The record written is made of the first `n`
bytes of the buffer. -/
def mfsUpdateRecord (T : Env) (s : System) (id n : Nat) (buffer : List Nat) :
    mfs_error_t × System :=
  match writeRecord T s id (buffer.take n) with
  | (err, s1) =>
    if MFS_IS_ERROR err.toInt then (err, s1)
    else
      (err, { s1 with drv := { s1.drv with
        cache := cacheInsert T.cacheSize s1.drv.cache
          ⟨id, s1.drv.last_offset, (buffer.take n).length⟩ } })

/-- Modelled from the spec: `mfsEraseRecord`, declared in mfs.h and defined in
mfs.c, which is not under src/. -/
def mfsEraseRecord (T : Env) (s : System) (id : Nat) : mfs_error_t × System :=
  match findRecord T s id with
  | (none, s1) => (.MFS_ID_NOT_FOUND, s1)
  | (some _, s1) =>
    match writeRecord T s1 id [] with
    | (err, s2) =>
      if MFS_IS_ERROR err.toInt then (err, s2)
      else (err, { s2 with drv := { s2.drv with cache := cacheRemove s2.drv.cache id } })

/-- Modelled from the spec: the engine after `mount` on two erased banks:
bank 0 is formatted as the current bank with the counter 1. -/
def formatted (T : Env) (banks_size : Nat) : System :=
  { drv :=
      { state := .MFS_MOUNTED
        current_bank := .MFS_BANK_0
        banks_size := banks_size
        next_offset := dataStart T
        last_offset := 0
        used_space := 0
        cache := [] }
    flash :=
      { bank0 := { header := some (newBankHeader T 1), data := fun _ => none }
        bank1 := erasedBank } }

/-- Modelled from the spec: the headers of the chain walked backward from the
header at `off`, newest first. The first argument bounds its length. -/
def chainFrom (data : Nat → Option Record) : Nat → Nat → List (Nat × Record)
  | 0, _ => []
  | fuel + 1, off =>
    if off = 0 then []
    else
      match data off with
      | none => []
      | some r => (off, r) :: chainFrom data fuel r.hdr.prev_header

/-- Modelled from the spec: the live view of the current bank: the header
chain is walked backward from the last header, and for each identifier the
first header met is the authoritative one; an identifier is live when this
header is not an erase marker. -/
def isLive (s : System) (id : Nat) : Bool :=
  match (chainFrom (s.flash.bank s.drv.current_bank).data (s.drv.last_offset + 1)
      s.drv.last_offset).find? (fun x => decide (x.2.hdr.id = id)) with
  | some x => decide (x.2.hdr.size ≠ 0)
  | none => false

/-- Modelled from the spec: the invariant of the record index that a lookup
misses for every identifier that is not in the live view, that is, whether the
cache holds live identifiers only. -/
def cacheSound (s : System) : Bool :=
  s.drv.cache.all (fun c => isLive s c.id)

/-- Modelled from the spec: the invariant that the `prev_header` chain is
acyclic and terminates at zero: whether the chain walked backward from the
header at `off` goes through programmed headers at strictly decreasing offsets
down to the offset zero. The first argument bounds its length. -/
def chainOK (data : Nat → Option Record) : Nat → Nat → Bool
  | 0, off => decide (off = 0)
  | fuel + 1, off =>
    if off = 0 then true
    else
      match data off with
      | none => false
      | some r => decide (r.hdr.prev_header < off) && chainOK data fuel r.hdr.prev_header

/-- Modelled from the spec: the invariants of the log of a mounted engine:
the log starts after the bank header, the last header lies before the next free
position, and the header chain from the last header is acyclic and terminates
at zero. -/
def ChainInv (s : System) : Prop :=
  0 < s.drv.next_offset ∧ s.drv.last_offset < s.drv.next_offset ∧
  chainOK (s.flash.bank s.drv.current_bank).data s.drv.last_offset s.drv.last_offset = true

/-- Modelled from the spec: the invariants of a mounted engine: those of the
log and that of the record index. -/
def Sound (s : System) : Prop := ChainInv s ∧ cacheSound s = true

/-- The engines reached from a mount on two erased banks by the operations of
the record API, an update being given an identifier and at least one byte. -/
inductive Reachable (T : Env) : System → Prop where
  | mount (banks_size : Nat) : Reachable T (formatted T banks_size)
  | read (s : System) (id : Nat) : Reachable T s → Reachable T (mfsReadRecord T s id).2.1
  | update (s : System) (id n : Nat) (buffer : List Nat) :
      Reachable T s → buffer.take n ≠ [] → Reachable T (mfsUpdateRecord T s id n buffer).2
  | erase (s : System) (id : Nat) : Reachable T s → Reachable T (mfsEraseRecord T s id).2

/-- The CRC-16 of the CCITT polynomial with the seed 0xFFFF, used in the
sample engines. -/
def crc16ccitt (bytes : List Nat) : Nat :=
  bytes.foldl (fun crc b =>
    (List.range 8).foldl (fun c _ =>
      if c / 32768 % 2 = 1 then (c * 2 % 65536) ^^^ 4129 else c * 2 % 65536)
      (crc ^^^ (b % 256 * 256))) 65535

/-- A sample configuration: a cache of 16 identifiers, pages of 16 bytes, a
program granularity of 4 bytes. -/
def sampleEnv : Env := ⟨16, 16, 4, crc16ccitt⟩

/-- A sample engine: two banks of 80 bytes just formatted by a mount. -/
def sampleFresh : System := formatted sampleEnv 80

/-- A sample engine: `sampleFresh` after the updates of the record 1 with
`[104, 105]`, of the record 2 with `[1, 2, 3]` and of the record 1 with `[7]`,
which leave room for 4 bytes in the bank. -/
def sampleFull : System :=
  (mfsUpdateRecord sampleEnv
    (mfsUpdateRecord sampleEnv
      (mfsUpdateRecord sampleEnv sampleFresh 1 2 [104, 105]).2 2 3 [1, 2, 3]).2 1 1 [7]).2

/-- A sample engine: `sampleFull` after the erase of the record 2, which is
preceded by a compaction. -/
def sampleErased : System := (mfsEraseRecord sampleEnv sampleFull 2).2

end MFS

/-! ## Theorems -/

/-- C1: for every `mfs_error_t` value, `MFS_IS_ERROR` holds exactly for the
four error codes and `MFS_IS_WARNING` exactly for the two warning codes; no
integer value satisfies both macros, and `MFS_NO_ERROR` satisfies neither. -/
theorem mfs_error_warning_classes (e : mfs_error_t) (v : Int) :
    (MFS_IS_ERROR e.toInt = true ↔
      (e = .MFS_ID_NOT_FOUND ∨ e = .MFS_CRC_ERROR ∨ e = .MFS_FLASH_FAILURE
        ∨ e = .MFS_INTERNAL_ERROR)) ∧
    (MFS_IS_WARNING e.toInt = true ↔ (e = .MFS_REPAIR_WARNING ∨ e = .MFS_GC_WARNING)) ∧
    ¬ (MFS_IS_ERROR v = true ∧ MFS_IS_WARNING v = true) ∧
    MFS_IS_ERROR mfs_error_t.MFS_NO_ERROR.toInt = false ∧
    MFS_IS_WARNING mfs_error_t.MFS_NO_ERROR.toInt = false := by
  refine ⟨?_, ?_, ?_, by decide, by decide⟩
  · cases e <;> decide
  · cases e <;> decide
  · simp only [MFS_IS_ERROR, MFS_IS_WARNING, mfs_error_t.toInt, decide_eq_true_eq]
    omega

namespace HalBuffers

/-! ### Lemmas on memory and on single turns of the loops -/

/-- A byte read from memory is below 256. -/
theorem peek_lt (m : Mem) (a : Nat) : peek m a < 256 := by
  unfold peek; omega

/-- A size field read from memory fits in a `size_t`. -/
theorem loadSize_lt (m : Mem) (a : Nat) : loadSize m a < 4294967296 := by
  have h0 := peek_lt m a
  have h1 := peek_lt m (a + 1)
  have h2 := peek_lt m (a + 2)
  have h3 := peek_lt m (a + 3)
  unfold loadSize; omega

theorem sub32_add (p s : Nat) (hs : s < 4294967296) : sub32 (p + s) p = s := by
  unfold sub32
  have : ((p + s : Nat) : Int) - (p : Int) = (s : Int) := by push_cast; ring
  rw [this]
  have h2 : ((s : Int) % 4294967296) = (s : Int) := Int.emod_eq_of_lt (by omega) (by omega)
  rw [h2]; simp

theorem readBytes_length (m : Mem) (a n : Nat) : (readBytes m a n).length = n := by
  simp [readBytes]

theorem readBytes_congr (m1 m2 : Mem) (a n : Nat) (h : ∀ i, i < n → m1 (a + i) = m2 (a + i)) :
    readBytes m1 a n = readBytes m2 a n := by
  unfold readBytes
  apply List.map_congr_left
  intro i hi
  simp only [peek, h i (List.mem_range.mp hi)]

theorem readBytes_add (m : Mem) (a n k : Nat) :
    readBytes m a (n + k) = readBytes m a n ++ readBytes m (a + n) k := by
  unfold readBytes
  rw [List.range_add, List.map_append, List.map_map]
  congr 1
  apply List.map_congr_left
  intro i _
  simp [Nat.add_assoc]

theorem readBytes_take (m : Mem) (a n j : Nat) (h : j ≤ n) :
    (readBytes m a n).take j = readBytes m a j := by
  obtain ⟨k, rfl⟩ := Nat.exists_eq_add_of_le h
  rw [readBytes_add, List.take_left' (readBytes_length m a j)]

theorem readBytes_memcpy (m : Mem) (dst src n : Nat) :
    readBytes (memcpy m dst src n) dst n = readBytes m src n := by
  unfold readBytes
  apply List.map_congr_left
  intro i hi
  have hi2 := List.mem_range.mp hi
  simp [peek, memcpy, hi2]

theorem memcpy_frame (m : Mem) (dst src n a : Nat) (h : a < dst ∨ dst + n ≤ a) :
    memcpy m dst src n a = m a := by
  unfold memcpy
  rw [if_neg]; omega

/-- On a queue that is not empty `ibqGetFullBufferTimeoutS` acquires the oldest
buffer and takes no wake-up. -/
theorem ibqGetFull_nonempty (H : HalDecls) (t : Nat) (wakes : List Wake) (w : World)
    (hne : H.ibqIsEmptyI w.q = false) :
    ibqGetFullBufferTimeoutS H t wakes w =
      .ret H.MSG_OK { w with q := { w.q with
        ptr := w.q.brdptr + 4, top := w.q.brdptr + 4 + loadSize w.mem w.q.brdptr } } wakes := by
  cases wakes <;> simp [ibqGetFullBufferTimeoutS, ibqSetCurrent, hne]

theorem ibqReadAcquire_go (H : HalDecls) (deadline timeout now : Nat) (wakes : List Wake)
    (w : World) (hptr : w.q.ptr = 0) (hne : H.ibqIsEmptyI w.q = false)
    (hclk : sub32 deadline (now % 4294967296) ≤ timeout) :
    ibqReadAcquire H deadline timeout now wakes w =
      .go { w with q := { w.q with
        ptr := w.q.brdptr + 4, top := w.q.brdptr + 4 + loadSize w.mem w.q.brdptr } } wakes := by
  unfold ibqReadAcquire
  rw [if_pos hptr]
  simp only []
  rw [if_neg (by omega), ibqGetFull_nonempty H _ wakes w hne]
  simp

theorem ibqReadLoop_done (H : HalDecls) (clock : Nat → Nat) (deadline timeout n : Nat)
    (fuel reads r bp : Nat) (wakes : List Wake) (w : World) (h : ¬ r < n) :
    ibqReadLoop H clock deadline timeout n fuel reads r bp wakes w = .ret r w wakes := by
  cases fuel <;> simp [ibqReadLoop, h]

/-- One turn of the loop that consumes the whole oldest buffer. -/
theorem ibqReadLoop_whole (H : HalDecls) (clock : Nat → Nat) (deadline timeout n : Nat)
    (fuel reads r bp : Nat) (wakes : List Wake) (w : World) (s : Nat)
    (hr : r < n) (hptr : w.q.ptr = 0) (hne : H.ibqIsEmptyI w.q = false)
    (hclk : sub32 deadline (clock reads % 4294967296) ≤ timeout)
    (hs : loadSize w.mem w.q.brdptr = s) (hsn : s ≤ n - r) (hn : n < 4294967296) :
    ibqReadLoop H clock deadline timeout n (fuel + 1) reads r bp wakes w =
      ibqReadLoop H clock deadline timeout n fuel (reads + 1) (r + s) (bp + s) wakes
        { q := { w.q with
            bcounter := decSize w.q.bcounter
            brdptr := nextSlot w.q w.q.brdptr
            ptr := 0
            top := w.q.brdptr + 4 + s }
          mem := memcpy w.mem bp (w.q.brdptr + 4) s
          notified := if w.q.notify ≠ 0 then w.notified + 1 else w.notified } := by
  have hs32 : s < 4294967296 := by omega
  rw [ibqReadLoop, if_pos hr, ibqReadAcquire_go H deadline timeout _ wakes w hptr hne hclk]
  simp only [ibqReadChunk, hs, sub32_add _ s hs32]
  have h1 : ¬ s > n - r := by omega
  have h2 : (r + s) % 4294967296 = r + s := Nat.mod_eq_of_lt (by omega)
  simp only [h1, if_false, if_pos hptr, ge_iff_le, le_refl, if_true, h2]
  rfl

/-- The turn of the loop that ends the reading inside the oldest buffer. -/
theorem ibqReadLoop_inside (H : HalDecls) (clock : Nat → Nat) (deadline timeout n : Nat)
    (fuel reads r bp : Nat) (wakes : List Wake) (w : World) (s : Nat)
    (hr : r < n) (hptr : w.q.ptr = 0) (hne : H.ibqIsEmptyI w.q = false)
    (hclk : sub32 deadline (clock reads % 4294967296) ≤ timeout)
    (hs : loadSize w.mem w.q.brdptr = s) (hsn : n - r < s) (hn : n < 4294967296) :
    ibqReadLoop H clock deadline timeout n (fuel + 1) reads r bp wakes w =
      .ret n
        { q := { w.q with
            ptr := w.q.brdptr + 4 + (n - r)
            top := w.q.brdptr + 4 + s }
          mem := memcpy w.mem bp (w.q.brdptr + 4) (n - r)
          notified := w.notified } wakes := by
  have hs32 : s < 4294967296 := by rw [← hs]; exact loadSize_lt _ _
  rw [ibqReadLoop, if_pos hr, ibqReadAcquire_go H deadline timeout _ wakes w hptr hne hclk]
  simp only [ibqReadChunk, hs, sub32_add _ s hs32]
  have h1 : s > n - r := hsn
  have h2 : (r + (n - r)) % 4294967296 = n := by
    rw [Nat.mod_eq_of_lt (by omega)]; omega
  have h3 : ¬ (w.q.brdptr + 4 + (n - r) ≥ w.q.brdptr + 4 + s) := by omega
  simp only [h1, if_true, if_pos hptr, h2, h3, if_false]
  rw [ibqReadLoop_done _ _ _ _ _ _ _ _ _ _ _ (by omega)]

/-- Writing into an area apart from the filled buffers leaves them as they are. -/
theorem FilledFrom_frame (m1 m2 : Mem) (next : Nat → Nat) (bp len : Nat)
    (hm : ∀ a, a < bp ∨ bp + len ≤ a → m2 a = m1 a) :
    ∀ (bufs : List (List Nat)) (p : Nat), ApartFrom bp len next p bufs →
      FilledFrom m1 next p bufs → FilledFrom m2 next p bufs := by
  intro bufs
  induction bufs with
  | nil => intro p _ _; trivial
  | cons d ds ih =>
    intro p hap hf
    obtain ⟨hap1, hap2⟩ := hap
    obtain ⟨h1, h2, h3⟩ := hf
    refine ⟨?_, ?_, ih _ hap2 h3⟩
    · rw [← h1]
      unfold loadSize peek
      rw [hm p (by omega), hm (p + 1) (by omega), hm (p + 2) (by omega), hm (p + 3) (by omega)]
    · rw [← h2, readBytes_length]
      apply readBytes_congr
      intro i hi
      exact hm _ (by omega)

theorem ApartFrom_sub (next : Nat → Nat) (bp len bp2 len2 : Nat) (h1 : bp ≤ bp2)
    (h2 : bp2 + len2 ≤ bp + len) :
    ∀ (bufs : List (List Nat)) (p : Nat), ApartFrom bp len next p bufs →
      ApartFrom bp2 len2 next p bufs := by
  intro bufs
  induction bufs with
  | nil => intro p _; trivial
  | cons d ds ih =>
    intro p hap
    obtain ⟨hap1, hap2⟩ := hap
    exact ⟨by omega, ih _ hap2⟩

theorem nextSlot_congr (q1 q2 : io_buffers_queue_t) (h1 : q1.bsize = q2.bsize)
    (h2 : q1.btop = q2.btop) (h3 : q1.buffers = q2.buffers) : nextSlot q1 = nextSlot q2 := by
  funext p
  simp only [nextSlot, h1, h2, h3]

/-- The loop of `ibqReadTimeout`, started with `r` bytes already read and no
current buffer, on a queue whose filled buffers hold `bufs`. -/
theorem ibqReadLoop_filled (H : HalDecls) (clock : Nat → Nat) (deadline timeout n : Nat)
    (hE : ∀ q, H.ibqIsEmptyI q = true ↔ q.bcounter = 0)
    (hn : n < 4294967296) :
    ∀ (bufs : List (List Nat)) (fuel reads r bp : Nat) (wakes : List Wake) (w : World),
      (∀ k, reads ≤ k → k < reads + bufs.length →
        sub32 deadline (clock k % 4294967296) ≤ timeout) →
      w.q.ptr = 0 → w.q.bcounter = bufs.length → bufs.length < 4294967296 →
      FilledFrom w.mem (nextSlot w.q) w.q.brdptr bufs →
      (∀ d ∈ bufs, 1 ≤ d.length) →
      ApartFrom bp (n - r) (nextSlot w.q) w.q.brdptr bufs →
      r ≤ n → n - r ≤ bufs.flatten.length → bufs.length ≤ fuel →
      ∃ w1 j rem,
        ibqReadLoop H clock deadline timeout n fuel reads r bp wakes w = .ret n w1 wakes ∧
        readBytes w1.mem bp (n - r) = bufs.flatten.take (n - r) ∧
        (∀ a, a < bp ∨ bp + (n - r) ≤ a → w1.mem a = w.mem a) ∧
        j ≤ bufs.length ∧ ((bufs.take j).map List.length).sum + rem = n - r ∧
        (rem = 0 ∨ rem < (bufs.getD j []).length) ∧
        w1.q.bcounter + j = w.q.bcounter ∧
        w1.q.brdptr = (nextSlot w.q)^[j] w.q.brdptr ∧
        (rem = 0 → w1.q.ptr = 0) ∧
        (0 < rem → w1.q.ptr = w1.q.brdptr + 4 + rem ∧
          w1.q.top = w1.q.brdptr + 4 + (bufs.getD j []).length) ∧
        (w1.q.bwrptr = w.q.bwrptr ∧ w1.q.btop = w.q.btop ∧ w1.q.bsize = w.q.bsize ∧
          w1.q.bn = w.q.bn ∧ w1.q.buffers = w.q.buffers ∧ w1.q.notify = w.q.notify ∧
          w1.q.link = w.q.link) ∧
        w1.notified = (if w.q.notify ≠ 0 then w.notified + j else w.notified) := by
  intro bufs
  induction bufs with
  | nil =>
    intro fuel reads r bp wakes w _ hptr _ _ _ _ _ hrn htot _
    have hrn2 : r = n := by simp at htot; omega
    subst hrn2
    refine ⟨w, 0, 0, ibqReadLoop_done _ _ _ _ _ _ _ _ _ _ _ (by omega), ?_⟩
    simp [readBytes, hptr]
  | cons d ds ih =>
    intro fuel reads r bp wakes w hclk hptr hcnt hlen hfill hpos hap hrn htot hfuel
    simp only [List.length_cons] at hcnt hlen hfuel hclk
    simp only [List.flatten_cons, List.length_append] at htot
    by_cases hr : r < n
    · obtain ⟨f, rfl⟩ : ∃ f, fuel = f + 1 := ⟨fuel - 1, by omega⟩
      have hne : H.ibqIsEmptyI w.q = false := by
        cases hb : H.ibqIsEmptyI w.q with
        | false => rfl
        | true => have := (hE w.q).mp hb; omega
      obtain ⟨hsz, hdata, hrest⟩ := hfill
      obtain ⟨hap1, hap2⟩ := hap
      have hd1 : 1 ≤ d.length := hpos d (by simp)
      by_cases hsn : d.length ≤ n - r
      · rw [ibqReadLoop_whole H clock deadline timeout n f reads r bp wakes w d.length hr hptr hne
          (hclk reads (Nat.le_refl _) (by omega)) hsz hsn hn]
        have hmemf : ∀ a, a < bp ∨ bp + (n - r) ≤ a →
            memcpy w.mem bp (w.q.brdptr + 4) d.length a = w.mem a := by
          intro a ha; exact memcpy_frame _ _ _ _ _ (by omega)
        obtain ⟨w3, hw3⟩ : ∃ w3 : World, w3 =
            { q := { w.q with
                bcounter := decSize w.q.bcounter
                brdptr := nextSlot w.q w.q.brdptr
                ptr := 0
                top := w.q.brdptr + 4 + d.length }
              mem := memcpy w.mem bp (w.q.brdptr + 4) d.length
              notified := if w.q.notify ≠ 0 then w.notified + 1 else w.notified } := ⟨_, rfl⟩
        rw [← hw3]
        have hnx : nextSlot w3.q = nextSlot w.q :=
          nextSlot_congr _ _ (by rw [hw3]) (by rw [hw3]) (by rw [hw3])
        have hq3 : w3.q.ptr = 0 ∧ w3.q.bcounter = decSize w.q.bcounter ∧
            w3.q.brdptr = nextSlot w.q w.q.brdptr ∧
            w3.mem = memcpy w.mem bp (w.q.brdptr + 4) d.length ∧
            w3.notified = (if w.q.notify ≠ 0 then w.notified + 1 else w.notified) ∧
            (w3.q.bwrptr = w.q.bwrptr ∧ w3.q.btop = w.q.btop ∧ w3.q.bsize = w.q.bsize ∧
              w3.q.bn = w.q.bn ∧ w3.q.buffers = w.q.buffers ∧ w3.q.notify = w.q.notify ∧
              w3.q.link = w.q.link) := by
          rw [hw3]; exact ⟨rfl, rfl, rfl, rfl, rfl, rfl, rfl, rfl, rfl, rfl, rfl, rfl⟩
        obtain ⟨h3p, h3c, h3b, h3m, h3n, h3s⟩ := hq3
        obtain ⟨w1, j, rem, heq, hread, hframe, hj, hsum, hrem, hbc, hbrd, hp0, hp1, hsame, hnot⟩ :=
          ih f (reads + 1) (r + d.length) (bp + d.length) wakes w3
            (fun k hk1 hk2 => hclk k (by omega) (by omega)) h3p
            (by rw [h3c, decSize, if_neg (by omega)]; omega) (by omega)
            (by
              rw [hnx, h3b, h3m]
              exact FilledFrom_frame w.mem _ (nextSlot w.q) bp (n - r) hmemf ds _ hap2 hrest)
            (fun x hx => hpos x (by simp [hx]))
            (by
              rw [hnx, h3b]
              exact ApartFrom_sub (nextSlot w.q) bp (n - r) _ _ (by omega) (by omega) ds _ hap2)
            (by omega) (by omega) (by omega)
        refine ⟨w1, j + 1, rem, heq, ?_, ?_, ?_, ?_, ?_, ?_, ?_, hp0, ?_, ?_, ?_⟩
        · have hsplit : n - r = d.length + (n - (r + d.length)) := by omega
          rw [hsplit, readBytes_add, hread, List.flatten_cons, List.take_append]
          congr 1
          rw [readBytes_congr w1.mem (memcpy w.mem bp (w.q.brdptr + 4) d.length) bp d.length
            (fun i hi => by rw [← h3m]; exact hframe _ (by omega)), readBytes_memcpy, hdata]
        · intro a ha
          rw [hframe a (by omega), h3m]
          exact hmemf a ha
        · simp only [List.length_cons]; omega
        · simp only [List.take_succ_cons, List.map_cons, List.sum_cons]; omega
        · simpa using hrem
        · rw [h3c, decSize, if_neg (by omega)] at hbc; omega
        · rw [hbrd, hnx, h3b]; rfl
        · simpa using hp1
        · obtain ⟨a1, a2, a3, a4, a5, a6, a7⟩ := hsame
          obtain ⟨b1, b2, b3, b4, b5, b6, b7⟩ := h3s
          exact ⟨a1.trans b1, a2.trans b2, a3.trans b3, a4.trans b4, a5.trans b5, a6.trans b6,
            a7.trans b7⟩
        · rw [hnot, h3n, h3s.2.2.2.2.2.1]; split <;> omega
      · have hsn2 : n - r < d.length := by omega
        rw [ibqReadLoop_inside H clock deadline timeout n f reads r bp wakes w d.length hr hptr hne
          (hclk reads (Nat.le_refl _) (by omega)) hsz hsn2 hn]
        refine ⟨_, 0, n - r, rfl, ?_, ?_, ?_⟩
        · rw [readBytes_memcpy, ← readBytes_take w.mem _ d.length (n - r) (by omega), hdata,
            List.flatten_cons, List.take_append_of_le_length (by omega)]
        · intro a ha; exact memcpy_frame _ _ _ _ _ ha
        · simp; omega
    · have hrn2 : r = n := by omega
      subst hrn2
      refine ⟨w, 0, 0, ibqReadLoop_done _ _ _ _ _ _ _ _ _ _ _ (by omega), ?_⟩
      simp [readBytes, hptr]

/-- One call of `ibqGetTimeout` while `j` bytes of the oldest buffer have been
read. -/
theorem ibqGetTimeout_holding (H : HalDecls) (timeout : Nat) (wakes : List Wake) (w : World)
    (s j : Nat) (hne : H.ibqIsEmptyI w.q = false) (hptr : w.q.ptr = 0)
    (hs : loadSize w.mem w.q.brdptr = s) (hj : j < s) :
    ibqGetTimeout H timeout wakes (holding w s j) =
      .ret ((peek w.mem (w.q.brdptr + 4 + j) : Nat) : Int)
        (if j + 1 < s then holding w s (j + 1)
          else ibqReleaseEmptyBufferI
            { w with q := { w.q with ptr := w.q.brdptr + 4 + s, top := w.q.brdptr + 4 + s } })
        wakes := by
  by_cases hj0 : j = 0
  · subst hj0
    simp only [holding, if_true, ibqGetTimeout, if_pos hptr, ibqGetFull_nonempty H _ wakes w hne,
      ne_eq, not_true_eq_false, if_false, ibqGetByte, hs, Nat.add_zero]
    by_cases h1 : 0 + 1 < s
    · have h2 : ¬ (w.q.brdptr + 4 + 1 ≥ w.q.brdptr + 4 + s) := by omega
      rw [if_neg h2, if_pos h1, if_neg (by omega)]
    · have h2 : w.q.brdptr + 4 + 1 ≥ w.q.brdptr + 4 + s := by omega
      have h3 : s = 1 := by omega
      subst h3
      rw [if_pos h2, if_neg h1]
  · have hp : ¬ (w.q.brdptr + 4 + j = 0) := by omega
    simp only [holding, if_neg hj0, ibqGetTimeout, if_neg hp, ibqGetByte]
    by_cases h1 : j + 1 < s
    · have h2 : ¬ (w.q.brdptr + 4 + j + 1 ≥ w.q.brdptr + 4 + s) := by omega
      rw [if_neg h2, if_pos h1, if_neg (by omega)]
      rfl
    · have h2 : w.q.brdptr + 4 + j + 1 ≥ w.q.brdptr + 4 + s := by omega
      have h3 : s = j + 1 := by omega
      subst h3
      rw [if_pos h2, if_neg h1]
      rfl

theorem readBytes_succ (m : Mem) (a n : Nat) :
    readBytes m a (n + 1) = readBytes m a n ++ [peek m (a + n)] := by
  rw [readBytes_add]; simp [readBytes, List.range_succ]

theorem ibqGetTimeoutN_holding (H : HalDecls) (timeout : Nat) (wakes : List Wake) (w : World)
    (s : Nat) (hne : H.ibqIsEmptyI w.q = false) (hptr : w.q.ptr = 0)
    (hs : loadSize w.mem w.q.brdptr = s) :
    ∀ j, j < s → ibqGetTimeoutN H timeout j wakes w =
      .ret ((readBytes w.mem (w.q.brdptr + 4) j).map Int.ofNat) (holding w s j) wakes := by
  intro j
  induction j with
  | zero => intro _; simp [ibqGetTimeoutN, readBytes, holding]
  | succ k ih =>
    intro hk
    rw [ibqGetTimeoutN, ih (by omega)]
    simp only [ibqGetTimeout_holding H timeout wakes w s k hne hptr hs (by omega), if_pos hk,
      readBytes_succ, List.map_append, List.map_cons, List.map_nil]
    rfl

theorem ibqGetTimeoutN_release (H : HalDecls) (timeout : Nat) (wakes : List Wake) (w : World)
    (s : Nat) (hne : H.ibqIsEmptyI w.q = false) (hptr : w.q.ptr = 0)
    (hs : loadSize w.mem w.q.brdptr = s) (hs1 : 1 ≤ s) :
    ibqGetTimeoutN H timeout s wakes w =
      .ret ((readBytes w.mem (w.q.brdptr + 4) s).map Int.ofNat)
        (ibqReleaseEmptyBufferI
          { w with q := { w.q with ptr := w.q.brdptr + 4 + s, top := w.q.brdptr + 4 + s } })
        wakes := by
  obtain ⟨k, rfl⟩ : ∃ k, s = k + 1 := ⟨s - 1, by omega⟩
  rw [ibqGetTimeoutN, ibqGetTimeoutN_holding H timeout wakes w (k + 1) hne hptr hs k (by omega)]
  simp only [ibqGetTimeout_holding H timeout wakes w (k + 1) k hne hptr hs (by omega),
    Nat.lt_irrefl, if_false, readBytes_succ, List.map_append, List.map_cons, List.map_nil]
  rfl

/-- On a queue for which `obqIsEmptyI` does not hold `obqGetEmptyBufferTimeoutS`
sets up the current buffer and takes no wake-up. -/
theorem obqGetEmpty_go (H : HalDecls) (t : Nat) (wakes : List Wake) (w : World)
    (hne : H.obqIsEmptyI w.q = false) :
    obqGetEmptyBufferTimeoutS H t wakes w = .ret H.MSG_OK (obqSetCurrent w) wakes := by
  cases wakes <;> simp [obqGetEmptyBufferTimeoutS, hne]

theorem obqGetEmpty_blocked (H : HalDecls) (t : Nat) (w : World)
    (he : H.obqIsEmptyI w.q = true) :
    obqGetEmptyBufferTimeoutS H t [] w = .blocked := by
  simp [obqGetEmptyBufferTimeoutS, he]

theorem obqWriteLoop_done (H : HalDecls) (clock : Nat → Nat) (deadline timeout n : Nat)
    (fuel reads r bp : Nat) (wakes : List Wake) (w : World) (h : ¬ r < n) :
    obqWriteLoop H clock deadline timeout n fuel reads r bp wakes w = .ret r w wakes := by
  cases fuel <;> simp [obqWriteLoop, h]

theorem obqWriteLoop_blocked (H : HalDecls) (clock : Nat → Nat) (deadline timeout n : Nat)
    (fuel reads r bp : Nat) (w : World) (hr : r < n) (hptr : w.q.ptr = 0)
    (he : H.obqIsEmptyI w.q = true)
    (hclk : sub32 deadline (clock reads % 4294967296) ≤ timeout) :
    obqWriteLoop H clock deadline timeout n (fuel + 1) reads r bp [] w = .blocked := by
  rw [obqWriteLoop, if_pos hr, obqWriteAcquire, if_pos hptr]
  simp only []
  rw [if_neg (by omega), obqGetEmpty_blocked H _ w he]

/-- One turn of the loop of `obqWriteTimeout` that acquires a buffer. -/
theorem obqWriteLoop_go (H : HalDecls) (clock : Nat → Nat) (deadline timeout n : Nat)
    (fuel reads r bp : Nat) (wakes : List Wake) (w : World) (hr : r < n) (hptr : w.q.ptr = 0)
    (hne : H.obqIsEmptyI w.q = false)
    (hclk : sub32 deadline (clock reads % 4294967296) ≤ timeout) :
    obqWriteLoop H clock deadline timeout n (fuel + 1) reads r bp wakes w =
      obqWriteLoop H clock deadline timeout n fuel (reads + 1)
        ((r + (obqWriteChunk (obqSetCurrent w) bp n r).1) % 4294967296)
        (bp + (obqWriteChunk (obqSetCurrent w) bp n r).1) wakes
        (obqWriteChunk (obqSetCurrent w) bp n r).2 := by
  rw [obqWriteLoop, if_pos hr, obqWriteAcquire, if_pos hptr]
  simp only []
  rw [if_neg (by omega), obqGetEmpty_go H _ wakes w hne]
  simp only [ne_eq, not_true_eq_false, if_false, if_pos hptr]

/-! ### Claims on the buffers queues -/

/-- C2, as amended: on an input queue with no current buffer whose filled
buffers, oldest first, hold the byte strings `bufs` (each of at least one byte,
posted with its length as size), with a caller's area of `n` bytes apart from
these buffers, and provided that at the reading of the clock made before each
acquisition of a buffer the deadline has not been passed, `ibqReadTimeout` of `n` bytes (at most the total held) returns
`n` without using any wake-up and leaves in the caller's area exactly the first
`n` bytes of the concatenation of `bufs`; the `j` buffers wholly consumed have
been released (`bcounter` decreased by `j`, `brdptr` advanced by `j` slots) and a
buffer consumed in part, by `rem` bytes, stays current with `ptr` past them. -/
theorem ibqReadTimeout_reads_filled (H : HalDecls) (clock : Nat → Nat) (fuel : Nat)
    (wakes : List Wake) (w : World) (bp n timeout : Nat) (bufs : List (List Nat))
    (hE : ∀ q, H.ibqIsEmptyI q = true ↔ q.bcounter = 0)
    (hptr : w.q.ptr = 0)
    (hcnt : w.q.bcounter = bufs.length) (hc32 : w.q.bcounter < 4294967296)
    (hfilled : FilledFrom w.mem (nextSlot w.q) w.q.brdptr bufs)
    (hpos : ∀ d ∈ bufs, 1 ≤ d.length)
    (hapart : ApartFrom bp n (nextSlot w.q) w.q.brdptr bufs)
    (hn : n ≤ bufs.flatten.length) (hn32 : n < 4294967296)
    (hclock : ∀ k, 1 ≤ k → k ≤ bufs.length →
      sub32 ((clock 0 % 4294967296 + timeout) % 4294967296) (clock k % 4294967296) ≤ timeout)
    (hfuel : bufs.length ≤ fuel) :
    ∃ w1 j rem,
      ibqReadTimeout H clock fuel wakes w bp n timeout = .ret n w1 wakes ∧
      readBytes w1.mem bp n = bufs.flatten.take n ∧
      (∀ a, a < bp ∨ bp + n ≤ a → w1.mem a = w.mem a) ∧
      j ≤ bufs.length ∧ ((bufs.take j).map List.length).sum + rem = n ∧
      (rem = 0 ∨ rem < (bufs.getD j []).length) ∧
      w1.q.bcounter + j = w.q.bcounter ∧
      w1.q.brdptr = (nextSlot w.q)^[j] w.q.brdptr ∧
      (rem = 0 → w1.q.ptr = 0) ∧
      (0 < rem → w1.q.ptr = w1.q.brdptr + 4 + rem ∧
        w1.q.top = w1.q.brdptr + 4 + (bufs.getD j []).length) := by
  obtain ⟨w1, j, rem, h1, h2, h3, h4, h5, h6, h7, h8, h9, h10, _, _⟩ :=
    ibqReadLoop_filled H clock _ timeout n hE hn32 bufs fuel 1 0 bp wakes w
      (fun k hk1 hk2 => hclock k hk1 (by omega)) hptr hcnt
      (by omega) hfilled hpos hapart (by omega) (by omega) hfuel
  exact ⟨w1, j, rem, h1, h2, h3, h4, h5, h6, h7, h8, h9, h10⟩

/-- C2, witness of the amended claim: the two filled buffers of `ibqSample`,
three bytes asked for, a clock that stands still. -/
theorem ibqReadTimeout_reads_filled_witness :
    ∃ w1 j rem,
      ibqReadTimeout chibios (fun _ => 0) 2 [] ibqSample 5000 3 0 = .ret 3 w1 [] ∧
      readBytes w1.mem 5000 3 = [[65, 66], [67, 68]].flatten.take 3 ∧
      (∀ a, a < 5000 ∨ 5000 + 3 ≤ a → w1.mem a = ibqSample.mem a) ∧
      j ≤ [[65, 66], [67, 68]].length ∧
      (([[65, 66], [67, 68]].take j).map List.length).sum + rem = 3 ∧
      (rem = 0 ∨ rem < ([[65, 66], [67, 68]].getD j []).length) ∧
      w1.q.bcounter + j = ibqSample.q.bcounter ∧
      w1.q.brdptr = (nextSlot ibqSample.q)^[j] ibqSample.q.brdptr ∧
      (rem = 0 → w1.q.ptr = 0) ∧
      (0 < rem → w1.q.ptr = w1.q.brdptr + 4 + rem ∧
        w1.q.top = w1.q.brdptr + 4 + ([[65, 66], [67, 68]].getD j []).length) :=
  ibqReadTimeout_reads_filled chibios (fun _ => 0) 2 [] ibqSample 5000 3 0 [[65, 66], [67, 68]]
    (fun q => by simp [chibios]) (by decide) (by decide) (by decide)
    ⟨by decide, by decide, by decide, by decide, trivial⟩ (by decide)
    ⟨by decide, by decide, trivial⟩ (by decide) (by decide)
    (fun _ _ _ =>
      (by decide : sub32 ((0 % 4294967296 + 0) % 4294967296) (0 % 4294967296) ≤ 0))
    (by decide)

/-- C2, counterexample to the claim as stated: `ibqSample` has no current
buffer and holds the filled buffers `[65, 66]` and `[67, 68]`; three bytes are
asked for with an immediate timeout and the clock advances by one tick while
the first buffer is copied. The call returns 4294967295, not 3, having copied
two bytes only, and one filled buffer is left in the queue. -/
theorem ibqReadTimeout_deadline_counterexample :
    ibqSample.q.ptr = 0 ∧
    FilledFrom ibqSample.mem (nextSlot ibqSample.q) ibqSample.q.brdptr [[65, 66], [67, 68]] ∧
    3 ≤ [[65, 66], [67, 68]].flatten.length ∧
    (ibqReadTimeout chibios tickingClock 10 [] ibqSample 5000 3 0).value = some 4294967295 ∧
    (ibqReadTimeout chibios tickingClock 10 [] ibqSample 5000 3 0).world.map
      (fun w => (readBytes w.mem 5000 3, w.q.bcounter)) = some ([65, 66, 0], 1) :=
  ⟨by decide, ⟨by decide, by decide, by decide, by decide, trivial⟩, by decide, by decide,
    by decide⟩

/-- C3 (the code departs from the claim): on the output queue `obqFresh`, just
initialised with one buffer of two bytes, `obqWriteTimeout` of two bytes
suspends the caller: with no wake-up it never returns, and woken by a timeout
it returns 4294967295 with the wake-up used. Whatever the declarations missing
from the source are, it does not happen that the call returns and that
`obqGetFullBufferI` then reports a buffer of size 2: the buffer is posted with
the size 6 of its slot. -/
theorem obqWriteTimeout_fresh_suspends :
    obqFresh.q = obqObjectInit 1000 2 1 0 0 ∧
    (∀ fuel, (obqWriteTimeout chibios (fun _ => 0) (fuel + 1) [] obqFresh 5000 2 0).isBlocked
      = true) ∧
    (obqWriteTimeout chibios (fun _ => 0) 10 [timeoutWake] obqFresh 5000 2 0).value
      = some 4294967295 ∧
    (obqWriteTimeout chibios (fun _ => 0) 10 [timeoutWake] obqFresh 5000 2 0).wakesLeft
      = some 0 ∧
    (∀ H : HalDecls,
      ¬ ∃ w1, (obqWriteTimeout H (fun _ => 0) 10 [] obqFresh 5000 2 0).world = some w1 ∧
        (obqGetFullBufferI H w1).2.1 = some 2) := by
  refine ⟨by decide, fun _ => rfl, by decide, by decide, ?_⟩
  intro H h
  obtain ⟨w1, h1, h2⟩ := h
  have hclk : ∀ k : Nat, sub32 ((0 % 4294967296 + 0) % 4294967296)
      ((fun _ : Nat => (0 : Nat)) k % 4294967296) ≤ 0 :=
    fun _ => (by decide : sub32 ((0 % 4294967296 + 0) % 4294967296) (0 % 4294967296) ≤ 0)
  unfold obqWriteTimeout at h1
  simp only [] at h1
  cases hb0 : H.obqIsEmptyI obqFresh.q with
  | true =>
    rw [obqWriteLoop_blocked H _ _ _ _ _ _ _ _ _ (by decide) (by decide) hb0 (hclk 1)] at h1
    cases h1
  | false =>
    rw [obqWriteLoop_go H _ _ _ _ _ _ _ _ _ _ (by decide) (by decide) hb0 (hclk 1)] at h1
    have hc0 : (obqWriteChunk (obqSetCurrent obqFresh) 5000 2 0).1 = 0 := by decide
    rw [hc0] at h1
    cases hb1 : H.obqIsEmptyI (obqWriteChunk (obqSetCurrent obqFresh) 5000 2 0).2.q with
    | true =>
      rw [obqWriteLoop_blocked H _ _ _ _ _ _ _ _ _ (by decide) (by decide) hb1 (hclk 2)] at h1
      cases h1
    | false =>
      rw [obqWriteLoop_go H _ _ _ _ _ _ _ _ _ _ (by decide) (by decide) hb1 (hclk 2)] at h1
      have hc1 : (obqWriteChunk (obqSetCurrent (obqWriteChunk (obqSetCurrent obqFresh) 5000 2 0).2)
          (5000 + 0) 2 ((0 + 0) % 4294967296)).1 = 2 := by decide
      rw [hc1, obqWriteLoop_done _ _ _ _ _ _ _ _ _ _ _ (by decide)] at h1
      simp only [Outcome.world, Option.some.injEq] at h1
      subst h1
      unfold obqGetFullBufferI at h2
      split at h2
      · cases h2
      · simp only [Option.some.injEq] at h2
        revert h2
        decide

/-- C4 (the code departs from the claim): reading one byte from the empty
input queue `ibqFresh` with an immediate timeout returns 4294967295, the code
`MSG_TIMEOUT` converted to `size_t`, although no byte was copied; and when the
deadline passes after the first buffer of `ibqSample` was copied the call
returns 4294967295 although two bytes were copied. -/
theorem ibqReadTimeout_timeout_value :
    chibios.ibqIsEmptyI ibqFresh.q = true ∧
    (ibqReadTimeout chibios (fun _ => 0) 10 [timeoutWake] ibqFresh 5000 1 0).value
      = some 4294967295 ∧
    (ibqReadTimeout chibios (fun _ => 0) 10 [timeoutWake] ibqFresh 5000 1 0).world.map
      (fun w => readBytes w.mem 5000 1) = some (readBytes ibqFresh.mem 5000 1) ∧
    (ibqReadTimeout chibios tickingClock 10 [] ibqSample 5000 3 0).value = some 4294967295 ∧
    (ibqReadTimeout chibios tickingClock 10 [] ibqSample 5000 3 0).world.map
      (fun w => readBytes w.mem 5000 3) = some [65, 66, 0] :=
  ⟨by decide, by decide, by decide, by decide, by decide⟩

/-- C5 (the code departs from the claim): writing one byte to the output queue
`obqFresh` when the wait for an empty buffer ends with a timeout returns
4294967295, the code `MSG_TIMEOUT` converted to `size_t`, although no byte was
copied into the queue; and writing two bytes to `obqLastByte`, whose current
buffer has room for one, when one tick passes during the copy, returns
4294967295 although one byte was copied. -/
theorem obqWriteTimeout_timeout_value :
    (obqWriteTimeout chibios (fun _ => 0) 10 [timeoutWake] obqFresh 5000 1 0).value
      = some 4294967295 ∧
    (obqWriteTimeout chibios (fun _ => 0) 10 [timeoutWake] obqFresh 5000 1 0).world.map
      (fun w => readBytes w.mem 1000 6) = some (readBytes obqFresh.mem 1000 6) ∧
    (obqWriteTimeout chibios (fun k => k) 10 [] obqLastByte 5000 2 0).value
      = some 4294967295 ∧
    (obqWriteTimeout chibios (fun k => k) 10 [] obqLastByte 5000 2 0).world.map
      (fun w => (peek obqLastByte.mem 1005, peek w.mem 1005)) = some (0, 65) :=
  ⟨by decide, by decide, by decide, by decide⟩

/-- C6 (the code departs from the claim): the output queue `obqFresh`, just
initialised, has one empty buffer, yet `obqGetEmptyBufferTimeoutS` suspends the
caller; and whatever the predicate `obqIsEmptyI` is, the call either suspends
or leaves `top` at 1004, the beginning of the data area, where the end of the
data area `bwrptr + bsize` is 1006. -/
theorem obqGetEmptyBufferTimeoutS_fresh :
    0 < obqFresh.q.bcounter ∧
    (obqGetEmptyBufferTimeoutS chibios 0 [] obqFresh).isBlocked = true ∧
    ∀ (H : HalDecls) (t : Nat),
      (obqGetEmptyBufferTimeoutS H t [] obqFresh).isBlocked = true ∨
      ((obqGetEmptyBufferTimeoutS H t [] obqFresh).world.map (fun w => w.q.top) = some 1004 ∧
        obqFresh.q.bwrptr + obqFresh.q.bsize = 1006) := by
  refine ⟨by decide, by decide, ?_⟩
  intro H t
  cases hb : H.obqIsEmptyI obqFresh.q with
  | true => left; simp [obqGetEmptyBufferTimeoutS, hb, Outcome.isBlocked]
  | false =>
    right
    refine ⟨?_, by decide⟩
    simp only [obqGetEmptyBufferTimeoutS, hb, Bool.false_eq_true, if_false, Outcome.world,
      Option.map_some']
    decide

/-- C7 (the code departs from the claim): on the empty input queue `ibqDrained`,
whose one buffer was read and released, a wait that ends with a timeout makes
`ibqGetFullBufferTimeoutS` return `MSG_TIMEOUT` with `ptr` equal to `NULL` but
`top` still 1005, the end of the buffer read before. -/
theorem ibqGetFullBufferTimeoutS_timeout_top :
    chibios.ibqIsEmptyI ibqDrained.q = true ∧
    (ibqGetFullBufferTimeoutS chibios 0 [timeoutWake] ibqDrained).value
      = some chibios.MSG_TIMEOUT ∧
    (ibqGetFullBufferTimeoutS chibios 0 [timeoutWake] ibqDrained).world.map
      (fun w => (w.q.ptr, w.q.top)) = some (0, 1005) :=
  ⟨by decide, by decide, by decide⟩

/-- C8: on an input queue that is not empty and has no current buffer, whose
oldest filled buffer was posted with size `s` (at least 1) and holds the bytes
`d`, the first `j` calls of `ibqGetTimeout`, for `j` below `s`, return the first
`j` bytes of `d` in order, use no wake-up and keep the buffer (`bcounter` and
`brdptr` unchanged); `s` calls return the whole of `d`, after which the buffer is
released: `bcounter` is one less, `brdptr` is at the next slot with wrap and
`ptr` is `NULL`. -/
theorem ibqGetTimeout_sequence (H : HalDecls) (timeout : Nat) (wakes : List Wake) (w : World)
    (s : Nat) (d : List Nat)
    (hne : H.ibqIsEmptyI w.q = false) (hcnt : 0 < w.q.bcounter)
    (hc32 : w.q.bcounter < 4294967296) (hptr : w.q.ptr = 0)
    (hs : loadSize w.mem w.q.brdptr = s) (hs1 : 1 ≤ s)
    (hd : readBytes w.mem (w.q.brdptr + 4) s = d) :
    (∀ j, j < s → ∃ w1,
      ibqGetTimeoutN H timeout j wakes w = .ret ((d.take j).map Int.ofNat) w1 wakes ∧
      w1.q.bcounter = w.q.bcounter ∧ w1.q.brdptr = w.q.brdptr ∧ w1.mem = w.mem ∧
      (0 < j → w1.q.ptr = w.q.brdptr + 4 + j ∧ w1.q.top = w.q.brdptr + 4 + s)) ∧
    (∃ w2,
      ibqGetTimeoutN H timeout s wakes w = .ret (d.map Int.ofNat) w2 wakes ∧
      w2.q.bcounter + 1 = w.q.bcounter ∧ w2.q.brdptr = nextSlot w.q w.q.brdptr ∧
      w2.q.ptr = 0 ∧ w2.mem = w.mem) := by
  constructor
  · intro j hj
    refine ⟨holding w s j, ?_, ?_⟩
    · rw [ibqGetTimeoutN_holding H timeout wakes w s hne hptr hs j hj, ← hd,
        readBytes_take _ _ _ _ (by omega)]
    · unfold holding
      by_cases hj0 : j = 0
      · simp [hj0]
      · simp [hj0]
  · refine ⟨ibqReleaseEmptyBufferI
      { w with q := { w.q with ptr := w.q.brdptr + 4 + s, top := w.q.brdptr + 4 + s } }, ?_, ?_⟩
    · rw [ibqGetTimeoutN_release H timeout wakes w s hne hptr hs hs1, hd]
    · refine ⟨?_, rfl, rfl, rfl⟩
      simp only [ibqReleaseEmptyBufferI, decSize]
      rw [if_neg (by omega)]; omega

/-- C8, witness: the first buffer of `ibqSample`, of size 2, holding `[65, 66]`. -/
theorem ibqGetTimeout_sequence_witness :
    (∀ j, j < 2 → ∃ w1,
      ibqGetTimeoutN chibios 0 j [] ibqSample = .ret (([65, 66].take j).map Int.ofNat) w1 [] ∧
      w1.q.bcounter = ibqSample.q.bcounter ∧ w1.q.brdptr = ibqSample.q.brdptr ∧
      w1.mem = ibqSample.mem ∧
      (0 < j → w1.q.ptr = ibqSample.q.brdptr + 4 + j ∧
        w1.q.top = ibqSample.q.brdptr + 4 + 2)) ∧
    (∃ w2,
      ibqGetTimeoutN chibios 0 2 [] ibqSample = .ret ([65, 66].map Int.ofNat) w2 [] ∧
      w2.q.bcounter + 1 = ibqSample.q.bcounter ∧
      w2.q.brdptr = nextSlot ibqSample.q ibqSample.q.brdptr ∧
      w2.q.ptr = 0 ∧ w2.mem = ibqSample.mem) :=
  ibqGetTimeout_sequence chibios 0 [] ibqSample 2 [65, 66] (by decide) (by decide) (by decide)
    (by decide) (by decide) (by decide) (by decide)

/-- C9 (the code departs from the claim): on `obqCurrent`, whose current buffer
has room (`ptr` 1004, `top` 1006, `bcounter` 1), `obqPutTimeout` of the byte 65
returns `MSG_OK` but leaves `ptr` at 1004, decreases `bcounter` to 0 although the
buffer is not full, advances `bwrptr` to 1001 and stores the byte at 1000, in
the size field, the byte at 1004 staying as it was. -/
theorem obqPutTimeout_current :
    obqCurrent.q.ptr = 1004 ∧ obqCurrent.q.top = 1006 ∧ obqCurrent.q.bcounter = 1 ∧
    obqCurrent.q.bwrptr = 1000 ∧ peek obqCurrent.mem 1004 = 0 ∧
    (obqPutTimeout chibios 0 [] obqCurrent 65).value = some chibios.MSG_OK ∧
    (obqPutTimeout chibios 0 [] obqCurrent 65).world.map
      (fun w => (w.q.ptr, w.q.bcounter, w.q.bwrptr, peek w.mem 1004, peek w.mem 1000))
      = some (1004, 0, 1001, 0, 65) :=
  ⟨by decide, by decide, by decide, by decide, by decide, by decide, by decide⟩

/-- C10: when `ibqIsFullI` holds exactly for the queues whose write pointer
equals the read pointer with a non-zero counter, `ibqGetEmptyBufferI` returns
`NULL` exactly on these queues and `bwrptr + sizeof (size_t)` on the others; it
leaves the queue as it was, so that a second call returns the same pointer. -/
theorem ibqGetEmptyBufferI_spec (H : HalDecls) (q : input_buffers_queue_t)
    (hfull : ∀ q, H.ibqIsFullI q = true ↔ (q.bwrptr = q.brdptr ∧ q.bcounter ≠ 0)) :
    ((ibqGetEmptyBufferI H q).1 = 0 ↔ (q.bwrptr = q.brdptr ∧ q.bcounter ≠ 0)) ∧
    (¬ (q.bwrptr = q.brdptr ∧ q.bcounter ≠ 0) → (ibqGetEmptyBufferI H q).1 = q.bwrptr + 4) ∧
    (ibqGetEmptyBufferI H q).2 = q ∧
    (ibqGetEmptyBufferI H (ibqGetEmptyBufferI H q).2).1 = (ibqGetEmptyBufferI H q).1 := by
  have hq : (ibqGetEmptyBufferI H q).2 = q := by
    unfold ibqGetEmptyBufferI; split <;> rfl
  refine ⟨?_, ?_, hq, by rw [hq]⟩
  · unfold ibqGetEmptyBufferI
    cases hb : H.ibqIsFullI q with
    | true => simpa using (hfull q).mp hb
    | false =>
      have hnot : ¬ (q.bwrptr = q.brdptr ∧ q.bcounter ≠ 0) := by
        intro h; rw [(hfull q).mpr h] at hb; cases hb
      simp only [Bool.false_eq_true, if_false]
      constructor
      · intro h; omega
      · intro h; exact absurd h hnot
  · intro hnot
    unfold ibqGetEmptyBufferI
    cases hb : H.ibqIsFullI q with
    | true => exact absurd ((hfull q).mp hb) hnot
    | false => simp

/-- C10, witness: the queue of `ibqSample`, which is full. -/
theorem ibqGetEmptyBufferI_spec_witness :
    ((ibqGetEmptyBufferI chibios ibqSample.q).1 = 0 ↔
      (ibqSample.q.bwrptr = ibqSample.q.brdptr ∧ ibqSample.q.bcounter ≠ 0)) ∧
    (¬ (ibqSample.q.bwrptr = ibqSample.q.brdptr ∧ ibqSample.q.bcounter ≠ 0) →
      (ibqGetEmptyBufferI chibios ibqSample.q).1 = ibqSample.q.bwrptr + 4) ∧
    (ibqGetEmptyBufferI chibios ibqSample.q).2 = ibqSample.q ∧
    (ibqGetEmptyBufferI chibios (ibqGetEmptyBufferI chibios ibqSample.q).2).1 =
      (ibqGetEmptyBufferI chibios ibqSample.q).1 :=
  ibqGetEmptyBufferI_spec chibios ibqSample.q (fun q => by simp [chibios])

end HalBuffers

/-! ### Claims on mfs.h -/

/-- C11: the numeric codes of the seven result kinds are 0, 1, 2, -1, -2, -3
and -4, and two different result kinds have different codes. -/
theorem mfs_error_codes :
    mfs_error_t.MFS_NO_ERROR.toInt = 0 ∧ mfs_error_t.MFS_REPAIR_WARNING.toInt = 1 ∧
    mfs_error_t.MFS_GC_WARNING.toInt = 2 ∧ mfs_error_t.MFS_ID_NOT_FOUND.toInt = -1 ∧
    mfs_error_t.MFS_CRC_ERROR.toInt = -2 ∧ mfs_error_t.MFS_FLASH_FAILURE.toInt = -3 ∧
    mfs_error_t.MFS_INTERNAL_ERROR.toInt = -4 ∧
    (∀ a b : mfs_error_t, a.toInt = b.toInt ↔ a = b) := by
  refine ⟨rfl, rfl, rfl, rfl, rfl, rfl, rfl, ?_⟩
  intro a b
  cases a <;> cases b <;> decide

/-- C15: the two bank magics are the 32-bit values 0xEC705ADE and 0xF0339CC5,
the header magic is the 16-bit value 0x5FAE, the bank magics differ, and none
of the three is the erased pattern (all bits one) of its width. -/
theorem mfs_magic_constants :
    MFS_BANK_MAGIC_1 = 0xEC705ADE ∧ MFS_BANK_MAGIC_2 = 0xF0339CC5 ∧
    MFS_HEADER_MAGIC = 0x5FAE ∧
    MFS_BANK_MAGIC_1 < 2 ^ 32 ∧ MFS_BANK_MAGIC_2 < 2 ^ 32 ∧ MFS_HEADER_MAGIC < 2 ^ 16 ∧
    MFS_BANK_MAGIC_1 ≠ MFS_BANK_MAGIC_2 ∧
    MFS_BANK_MAGIC_1 ≠ 2 ^ 32 - 1 ∧ MFS_BANK_MAGIC_2 ≠ 2 ^ 32 - 1 ∧
    MFS_HEADER_MAGIC ≠ 2 ^ 16 - 1 := by
  decide

/-- C18: when not overridden the cache size is 16, the number of repair
attempts 3 and the write verification is on; the check of the repair attempts
lets a value pass exactly when it is between 1 and 10, the check of the cache
size exactly when it is not negative; outside of a documentation run the cache
fields are compiled exactly when the cache size is positive, so that the size
0 leaves the cache out; and the defaults pass both checks. -/
theorem mfs_settings (doxigen : Bool) (v c : Int) :
    MFS_CFG_ID_CACHE_SIZE none doxigen = 16 ∧
    MFS_CFG_MAX_REPAIR_ATTEMPTS none doxigen = 3 ∧
    MFS_CFG_WRITE_VERIFY none doxigen = true ∧
    (repairAttemptsRejected v = false ↔ (1 ≤ v ∧ v ≤ 10)) ∧
    (cacheSizeRejected c = false ↔ 0 ≤ c) ∧
    (cacheFieldsCompiled c false = true ↔ 0 < c) ∧
    cacheFieldsCompiled 0 false = false ∧
    cacheSizeRejected (MFS_CFG_ID_CACHE_SIZE none doxigen) = false ∧
    repairAttemptsRejected (MFS_CFG_MAX_REPAIR_ATTEMPTS none doxigen) = false := by
  refine ⟨by cases doxigen <;> rfl, by cases doxigen <;> rfl, by cases doxigen <;> rfl,
    ?_, ?_, ?_, by decide, by cases doxigen <;> decide, by cases doxigen <;> decide⟩
  · simp only [repairAttemptsRejected, Bool.or_eq_false_iff, decide_eq_false_iff_not]
    omega
  · simp only [cacheSizeRejected, decide_eq_false_iff_not]
    omega
  · simp only [cacheFieldsCompiled, Bool.or_false, decide_eq_true_eq, gt_iff_lt]

/-- C16 (the code departs from the claim): the fields of `mfs_bank_header_t`
as declared, four of 4 bytes and one of 2 bytes, take 18 bytes, the structure
has a size of 20 bytes when each field is aligned to its size, and the field
`crc` starts at the offset 16, after the first 16 bytes. -/
theorem mfs_bank_header_size :
    mfs_bank_header_t_decl.map (fun f => f.2.sizeof) = [4, 4, 4, 4, 2] ∧
    fieldsBytes mfs_bank_header_t_decl = 18 ∧
    structSizeof mfs_bank_header_t_decl = 20 ∧
    fieldOffsets mfs_bank_header_t_decl 0 =
      [(.magic1, 0), (.magic2, 4), (.counter, 8), (.next, 12), (.crc, 16)] := by
  decide

/-- C17 (the code departs from the claim): the fields declared before `crc` in
`mfs_bank_header_t` are `magic1`, `magic2`, `counter` and `next`, and they take
16 bytes, not 14. -/
theorem mfs_bank_header_before_crc :
    (fieldsBefore mfs_bank_header_t_decl .crc).map (fun f => f.1) =
      [.magic1, .magic2, .counter, .next] ∧
    fieldsBytes (fieldsBefore mfs_bank_header_t_decl .crc) = 16 ∧
    fieldsEnd (fieldsBefore mfs_bank_header_t_decl .crc) 0 = 16 := by
  decide

namespace MFS

/-! ### Lemmas on the record store -/

theorem alignUp_ge (a x : Nat) (ha : 0 < a) : x ≤ alignUp a x := by
  unfold alignUp
  have h1 := Nat.div_add_mod (x + a - 1) a
  have h2 := Nat.mod_lt (x + a - 1) ha
  have h3 : (x + a - 1) / a * a = a * ((x + a - 1) / a) := Nat.mul_comm _ _
  omega

theorem dataStart_pos (T : Env) (hpage : 0 < T.page) : 0 < dataStart T := by
  have h := alignUp_ge T.page headerSize hpage
  unfold dataStart
  unfold headerSize at h ⊢
  omega

theorem bank_setBank_same (f : Flash) (b : mfs_bank_t) (x : Bank) :
    (f.setBank b x).bank b = x := by
  cases b <;> rfl

theorem bank_setBank_other (f : Flash) (b : mfs_bank_t) (x : Bank) :
    (f.setBank b x).bank b.other = f.bank b.other := by
  cases b <;> rfl

theorem bank_setBank_of_other (f : Flash) (b : mfs_bank_t) (x : Bank) :
    (f.setBank b.other x).bank b = f.bank b := by
  cases b <;> rfl

/-- What `appendRecord` leaves in the driver and at the offset it programs. -/
theorem appendRecord_spec (T : Env) (s : System) (id : Nat) (p : List Nat) :
    (appendRecord T s id p).drv.last_offset = s.drv.next_offset ∧
    (appendRecord T s id p).drv.next_offset = s.drv.next_offset + recordSpace T p.length ∧
    (appendRecord T s id p).drv.current_bank = s.drv.current_bank ∧
    (appendRecord T s id p).drv.cache = s.drv.cache ∧
    (appendRecord T s id p).drv.banks_size = s.drv.banks_size ∧
    ((appendRecord T s id p).flash.bank s.drv.current_bank).data s.drv.next_offset =
      some ⟨⟨MFS_HEADER_MAGIC, T.crc16 p, id, p.length, s.drv.last_offset⟩, p⟩ ∧
    ((appendRecord T s id p).flash.bank s.drv.current_bank).header =
      (s.flash.bank s.drv.current_bank).header := by
  refine ⟨rfl, rfl, rfl, rfl, rfl, ?_, ?_⟩
  · simp only [appendRecord, bank_setBank_same, if_true]
  · simp only [appendRecord, bank_setBank_same]

theorem copyRecords_spec (T : Env) :
    ∀ (l : List Record) (s s1 : System), copyRecords T l s = some s1 →
      s.drv.next_offset ≤ s1.drv.next_offset ∧
      s1.drv.current_bank = s.drv.current_bank ∧
      (s1.flash.bank s.drv.current_bank).header = (s.flash.bank s.drv.current_bank).header := by
  intro l
  induction l with
  | nil =>
    intro s s1 h
    simp only [copyRecords, Option.some.injEq] at h
    subst h
    exact ⟨Nat.le_refl _, rfl, rfl⟩
  | cons r rest ih =>
    intro s s1 h
    rw [copyRecords] at h
    split at h
    · obtain ⟨h1, h2, h3⟩ := ih _ _ h
      obtain ⟨_, a2, a3, _, _, _, a7⟩ := appendRecord_spec T s r.hdr.id r.payload
      refine ⟨?_, ?_, ?_⟩
      · simp only [a2] at h1; omega
      · rw [h2]; exact a3
      · simp only [a3] at h3; rw [h3]; exact a7
    · cases h

/-- A compaction that succeeds leaves the engine on the other bank, whose
header is the new one, with its log starting after the bank header. -/
theorem compact_spec (T : Env) (s s1 : System) (h : compact T s = some s1) :
    dataStart T ≤ s1.drv.next_offset ∧
    s1.drv.current_bank = s.drv.current_bank.other ∧
    (s1.flash.bank s1.drv.current_bank).header =
      some (newBankHeader T (max (bankCounter (s.flash.bank s.drv.current_bank))
        (bankCounter (s.flash.bank s.drv.current_bank.other)) + 1)) := by
  unfold compact at h
  simp only [] at h
  split at h
  · cases h
  · rename_i s2 hc
    simp only [Option.some.injEq] at h
    subst h
    obtain ⟨h1, h2, h3⟩ := copyRecords_spec T _ _ _ hc
    simp only [bank_setBank_same] at h1 h2 h3
    refine ⟨h1, h2, ?_⟩
    rw [h2, bank_setBank_other]
    exact h3

/-- An entry written without error was appended to an engine whose log
starts after the bank header. -/
theorem writeRecord_ok (T : Env) (s : System) (id : Nat) (p : List Nat)
    (hpage : 0 < T.page) (hnext : 0 < s.drv.next_offset)
    (hok : MFS_IS_ERROR (writeRecord T s id p).1.toInt = false) :
    ∃ sx, (writeRecord T s id p).2 = appendRecord T sx id p ∧ 0 < sx.drv.next_offset := by
  unfold writeRecord at hok ⊢
  split
  · exact ⟨s, rfl, hnext⟩
  · rename_i hfit
    rw [if_neg hfit] at hok
    split
    · rename_i hc
      rw [hc] at hok
      simp [MFS_IS_ERROR, mfs_error_t.toInt] at hok
    · rename_i s1 hc
      rw [hc] at hok
      simp only [] at hok ⊢
      split
      · have := (compact_spec T s s1 hc).1
        have := dataStart_pos T hpage
        exact ⟨s1, rfl, by omega⟩
      · rename_i hfit2
        rw [if_neg hfit2] at hok
        simp [MFS_IS_ERROR, mfs_error_t.toInt] at hok

theorem cacheLookup_remove (c : List mfs_cached_id_t) (id : Nat) :
    cacheLookup (cacheRemove c id) id = none := by
  unfold cacheLookup cacheRemove
  rw [List.find?_eq_none]
  intro x hx
  have := (List.mem_filter.mp hx).2
  simpa using this

theorem cacheLookup_insert (cap : Nat) (c : List mfs_cached_id_t) (x : mfs_cached_id_t)
    (hcap : 0 < cap) : cacheLookup (cacheInsert cap c x) x.id = some x := by
  obtain ⟨n, rfl⟩ : ∃ n, cap = n + 1 := ⟨cap - 1, by omega⟩
  simp [cacheLookup, cacheInsert, List.take_succ_cons]

theorem cacheInsert_zero (c : List mfs_cached_id_t) (x : mfs_cached_id_t) :
    cacheInsert 0 c x = [] := by
  simp [cacheInsert]

/-- Reading the identifier of the last header of the log, when this header
is not an erase marker and the cache was updated with it. -/
theorem read_of_newest (T : Env) (s1 : System) (id off : Nat) (r : Record)
    (c0 : List mfs_cached_id_t)
    (h1 : s1.drv.last_offset = off) (h0 : off ≠ 0)
    (hd : (s1.flash.bank s1.drv.current_bank).data off = some r)
    (hid : r.hdr.id = id) (hsz : r.hdr.size ≠ 0) (hcrc : T.crc16 r.payload = r.hdr.crc)
    (hcache : s1.drv.cache = cacheInsert T.cacheSize c0 ⟨id, off, r.hdr.size⟩) :
    (mfsReadRecord T s1 id).1 = .MFS_NO_ERROR ∧
    (mfsReadRecord T s1 id).2.2 = some (r.hdr.size, r.payload) := by
  by_cases hcap : T.cacheSize = 0
  · have hl : cacheLookup s1.drv.cache id = none := by
      rw [hcache, hcap, cacheInsert_zero]; rfl
    have hw : backwardWalk (s1.flash.bank s1.drv.current_bank).data id (s1.drv.last_offset + 1)
        s1.drv.last_offset = some (off, r) := by
      rw [h1, backwardWalk, if_neg h0, hd]
      simp only [hid, if_true]
    simp only [mfsReadRecord, findRecord, hl, hw, if_neg hsz, hd, hcrc, if_true, and_self]
  · have hl : cacheLookup s1.drv.cache id = some ⟨id, off, r.hdr.size⟩ := by
      rw [hcache]
      exact cacheLookup_insert T.cacheSize c0 ⟨id, off, r.hdr.size⟩ (by omega)
    simp only [mfsReadRecord, findRecord, hl, hd, hcrc, if_true, and_self]

/-- Reading an identifier whose erase marker is the last header of the log
and which is not in the cache. -/
theorem read_of_marker (T : Env) (s1 : System) (id off : Nat) (r : Record)
    (h1 : s1.drv.last_offset = off) (h0 : off ≠ 0)
    (hd : (s1.flash.bank s1.drv.current_bank).data off = some r)
    (hid : r.hdr.id = id) (hsz : r.hdr.size = 0)
    (hcache : cacheLookup s1.drv.cache id = none) :
    mfsReadRecord T s1 id = (.MFS_ID_NOT_FOUND, s1, none) := by
  have hw : backwardWalk (s1.flash.bank s1.drv.current_bank).data id (s1.drv.last_offset + 1)
      s1.drv.last_offset = some (off, r) := by
    rw [h1, backwardWalk, if_neg h0, hd]
    simp only [hid, if_true]
  simp only [mfsReadRecord, findRecord, hcache, hw, hsz, if_true]

/-- After an update that returned no error the log is not empty and a read
of the identifier gives back the bytes written. -/
theorem update_then_read (T : Env) (s : System) (id : Nat) (b : List Nat)
    (hpage : 0 < T.page) (hnext : 0 < s.drv.next_offset) (hb : b ≠ [])
    (hok : MFS_IS_ERROR (mfsUpdateRecord T s id b.length b).1.toInt = false) :
    0 < (mfsUpdateRecord T s id b.length b).2.drv.next_offset ∧
    (mfsReadRecord T (mfsUpdateRecord T s id b.length b).2 id).1 = .MFS_NO_ERROR ∧
    (mfsReadRecord T (mfsUpdateRecord T s id b.length b).2 id).2.2 = some (b.length, b) := by
  have htake : b.take b.length = b := List.take_length b
  unfold mfsUpdateRecord at hok ⊢
  rw [htake] at hok ⊢
  simp only [] at hok ⊢
  by_cases herr : MFS_IS_ERROR (writeRecord T s id b).1.toInt = true
  · rw [if_pos herr] at hok
    simp only [] at hok
    rw [herr] at hok
    cases hok
  · rw [if_neg herr] at hok ⊢
    simp only [Bool.not_eq_true] at herr
    obtain ⟨sx, hsx, hpos⟩ := writeRecord_ok T s id b hpage hnext herr
    obtain ⟨a1, a2, a3, a4, a5, a6, a7⟩ := appendRecord_spec T sx id b
    have hlen : b.length ≠ 0 := by
      intro h; exact hb (List.length_eq_zero.mp h)
    refine ⟨?_, ?_⟩
    · simp only [hsx, a2]; omega
    · apply read_of_newest T _ id sx.drv.next_offset
        ⟨⟨MFS_HEADER_MAGIC, T.crc16 b, id, b.length, sx.drv.last_offset⟩, b⟩
        (writeRecord T s id b).2.drv.cache
      · simp only [hsx, a1]
      · omega
      · simp only [hsx, a3]; exact a6
      · rfl
      · exact hlen
      · rfl
      · simp only [hsx, a1]

theorem findRecord_drv (T : Env) (s : System) (id : Nat) :
    (findRecord T s id).2.drv.next_offset = s.drv.next_offset ∧
    (findRecord T s id).2.drv.last_offset = s.drv.last_offset := by
  unfold findRecord
  split
  · exact ⟨rfl, rfl⟩
  · split
    · exact ⟨rfl, rfl⟩
    · split <;> exact ⟨rfl, rfl⟩

theorem backwardWalk_eq_find (data : Nat → Option Record) (id : Nat) :
    ∀ (fuel off : Nat), backwardWalk data id fuel off =
      (chainFrom data fuel off).find? (fun x => decide (x.2.hdr.id = id)) := by
  intro fuel
  induction fuel with
  | zero => intro off; rfl
  | succ n ih =>
    intro off
    rw [backwardWalk, chainFrom]
    by_cases h0 : off = 0
    · rw [if_pos h0, if_pos h0]; rfl
    · rw [if_neg h0, if_neg h0]
      cases hd : data off with
      | none => rfl
      | some r =>
        simp only []
        by_cases hid : r.hdr.id = id
        · simp [hid]
        · simp [hid, ih]

/-- After an erase that returned no error a read of the identifier finds
nothing. -/
theorem erase_then_read (T : Env) (s : System) (id : Nat)
    (hpage : 0 < T.page) (hnext : 0 < s.drv.next_offset)
    (hok : MFS_IS_ERROR (mfsEraseRecord T s id).1.toInt = false) :
    mfsReadRecord T (mfsEraseRecord T s id).2 id =
      (.MFS_ID_NOT_FOUND, (mfsEraseRecord T s id).2, none) := by
  unfold mfsEraseRecord at hok ⊢
  have hfd := (findRecord_drv T s id).1
  cases hf : findRecord T s id with
  | mk fr s1 =>
    rw [hf] at hok hfd
    simp only [] at hfd
    cases fr with
    | none =>
      simp [MFS_IS_ERROR, mfs_error_t.toInt] at hok
    | some c =>
      simp only [] at hok ⊢
      by_cases herr : MFS_IS_ERROR (writeRecord T s1 id []).1.toInt = true
      · rw [if_pos herr] at hok
        simp only [] at hok
        rw [herr] at hok
        cases hok
      · rw [if_neg herr]
        simp only [Bool.not_eq_true] at herr
        obtain ⟨sx, hsx, hpos⟩ := writeRecord_ok T s1 id [] hpage (by omega) herr
        obtain ⟨a1, a2, a3, a4, a5, a6, a7⟩ := appendRecord_spec T sx id []
        apply read_of_marker T _ id sx.drv.next_offset
          ⟨⟨MFS_HEADER_MAGIC, T.crc16 [], id, 0, sx.drv.last_offset⟩, []⟩
        · simp only [hsx, a1]
        · omega
        · simp only [hsx, a3]; exact a6
        · rfl
        · rfl
        · exact cacheLookup_remove _ _

/-- The erase of an identifier that is not live, on an engine whose cache
holds live identifiers only. -/
theorem erase_not_live (T : Env) (s : System) (id : Nat)
    (hcache : cacheSound s = true) (hlive : isLive s id = false) :
    mfsEraseRecord T s id = (.MFS_ID_NOT_FOUND, s) := by
  have hl : cacheLookup s.drv.cache id = none := by
    cases h : cacheLookup s.drv.cache id with
    | none => rfl
    | some c =>
      unfold cacheLookup at h
      have hmem := List.mem_of_find?_eq_some h
      have hid := List.find?_some h
      simp only [decide_eq_true_eq] at hid
      have := (List.all_eq_true.mp hcache) c hmem
      rw [hid, hlive] at this
      cases this
  unfold isLive at hlive
  rw [← backwardWalk_eq_find] at hlive
  unfold mfsEraseRecord findRecord
  rw [hl]
  cases hw : backwardWalk (s.flash.bank s.drv.current_bank).data id (s.drv.last_offset + 1)
      s.drv.last_offset with
  | none => rfl
  | some x =>
    rw [hw] at hlive
    simp only [ne_eq, decide_not, Bool.not_eq_false', decide_eq_true_eq] at hlive
    simp only [hlive, if_true]

theorem chain_stable (data data2 : Nat → Option Record) :
    ∀ (f o f2 : Nat), chainOK data f o = true → f ≤ f2 →
      (∀ x, x ≤ o → data2 x = data x) →
      chainOK data2 f2 o = true ∧ chainFrom data2 f2 o = chainFrom data f o := by
  intro f
  induction f with
  | zero =>
    intro o f2 hok _ _
    have ho : o = 0 := by simpa [chainOK] using hok
    subst ho
    cases f2 <;> simp [chainOK, chainFrom]
  | succ n ih =>
    intro o f2 hok hle hd
    obtain ⟨g, rfl⟩ : ∃ g, f2 = g + 1 := ⟨f2 - 1, by omega⟩
    by_cases ho : o = 0
    · subst ho
      simp [chainOK, chainFrom]
    · rw [chainOK, if_neg ho] at hok
      rw [chainOK, chainFrom, chainFrom, if_neg ho, if_neg ho, if_neg ho, hd o (Nat.le_refl _)]
      cases hr : data o with
      | none => rw [hr] at hok; cases hok
      | some r =>
        rw [hr] at hok
        simp only [Bool.and_eq_true, decide_eq_true_eq] at hok
        obtain ⟨h1, h2⟩ := hok
        obtain ⟨a, b⟩ := ih r.hdr.prev_header g h2 (by omega) (fun x hx => hd x (by omega))
        simp only [a, b, h1, decide_True, Bool.and_self, and_self]

theorem recordSpace_pos (T : Env) (n : Nat) (hgran : 0 < T.gran) : 0 < recordSpace T n := by
  have := alignUp_ge T.gran (headerSize + n) hgran
  unfold recordSpace
  unfold headerSize at this ⊢
  omega

/-- The chain and the invariants of the log after an entry was appended. -/
theorem appendRecord_chain (T : Env) (s : System) (id : Nat) (p : List Nat)
    (hgran : 0 < T.gran) (hs : ChainInv s) :
    ChainInv (appendRecord T s id p) ∧
    ∀ id2, isLive (appendRecord T s id p) id2 =
      if id = id2 then decide (p.length ≠ 0) else isLive s id2 := by
  obtain ⟨h1, h2, h3⟩ := hs
  obtain ⟨a1, a2, a3, a4, a5, a6, a7⟩ := appendRecord_spec T s id p
  have hsp := recordSpace_pos T p.length hgran
  have hdata : ∀ x, x ≤ s.drv.last_offset →
      ((appendRecord T s id p).flash.bank s.drv.current_bank).data x =
        (s.flash.bank s.drv.current_bank).data x := by
    intro x hx
    simp only [appendRecord, bank_setBank_same]
    rw [if_neg (by omega)]
  obtain ⟨n, hn⟩ : ∃ n, s.drv.next_offset = n + 1 := ⟨s.drv.next_offset - 1, by omega⟩
  have hst := chain_stable (s.flash.bank s.drv.current_bank).data
    ((appendRecord T s id p).flash.bank s.drv.current_bank).data
    s.drv.last_offset s.drv.last_offset n h3 (by omega) hdata
  have hst2 := chain_stable (s.flash.bank s.drv.current_bank).data
    ((appendRecord T s id p).flash.bank s.drv.current_bank).data
    s.drv.last_offset s.drv.last_offset s.drv.next_offset h3 (by omega) hdata
  have hst3 := chain_stable (s.flash.bank s.drv.current_bank).data
    (s.flash.bank s.drv.current_bank).data
    s.drv.last_offset s.drv.last_offset (s.drv.last_offset + 1) h3 (by omega) (fun _ _ => rfl)
  constructor
  · refine ⟨by rw [a2]; omega, by rw [a1, a2]; omega, ?_⟩
    rw [a1, a3, hn, chainOK, if_neg (by omega), ← hn, a6]
    simp only [Bool.and_eq_true, decide_eq_true_eq]
    exact ⟨h2, hst.1⟩
  · intro id2
    unfold isLive
    rw [a1, a3, chainFrom, if_neg (by omega), a6]
    simp only [List.find?_cons]
    by_cases hid : id = id2
    · simp [hid]
    · simp only [hid, decide_False, if_false]
      rw [hst2.2, hst3.2]

theorem mem_cacheRemove (c : List mfs_cached_id_t) (id : Nat) (x : mfs_cached_id_t)
    (h : x ∈ cacheRemove c id) : x ∈ c ∧ x.id ≠ id := by
  unfold cacheRemove at h
  obtain ⟨h1, h2⟩ := List.mem_filter.mp h
  exact ⟨h1, by simpa using h2⟩

theorem mem_cacheInsert (cap : Nat) (c : List mfs_cached_id_t) (e x : mfs_cached_id_t)
    (h : x ∈ cacheInsert cap c e) : x = e ∨ (x ∈ c ∧ x.id ≠ e.id) := by
  unfold cacheInsert at h
  have h1 := List.mem_of_mem_take h
  rcases List.mem_cons.mp h1 with h2 | h2
  · exact Or.inl h2
  · exact Or.inr (mem_cacheRemove c e.id x h2)

theorem cacheSound_iff (s : System) :
    cacheSound s = true ↔ ∀ x, x ∈ s.drv.cache → isLive s x.id = true := by
  unfold cacheSound
  rw [List.all_eq_true]

/-- The invariants depend on the driver and on the log of the current bank
only. -/
theorem Sound_congr (s s2 : System) (c : List mfs_cached_id_t)
    (h1 : s2.drv.next_offset = s.drv.next_offset)
    (h2 : s2.drv.last_offset = s.drv.last_offset)
    (h3 : (s2.flash.bank s2.drv.current_bank).data = (s.flash.bank s.drv.current_bank).data)
    (h4 : s2.drv.cache = c)
    (hs : ChainInv s) (hc : ∀ x, x ∈ c → isLive s x.id = true) : Sound s2 := by
  have hl : ∀ id, isLive s2 id = isLive s id := by
    intro id
    unfold isLive
    rw [h2, h3]
  refine ⟨?_, ?_⟩
  · unfold ChainInv at hs ⊢
    rw [h1, h2, h3]
    exact hs
  · rw [cacheSound_iff, h4]
    intro x hx
    rw [hl]
    exact hc x hx

/-- A lookup keeps the invariants, the flash and the log pointers. -/
theorem findRecord_sound (T : Env) (s : System) (id : Nat) (hs : Sound s) :
    Sound (findRecord T s id).2 := by
  obtain ⟨hch, hca⟩ := hs
  rw [cacheSound_iff] at hca
  unfold findRecord
  split
  · rename_i c hl
    have hmem : c ∈ s.drv.cache := List.mem_of_find?_eq_some hl
    refine Sound_congr s _ _ (by rfl) (by rfl) (by rfl) (by rfl) hch ?_
    intro x hx
    rcases mem_cacheInsert _ _ _ _ hx with h | h
    · rw [h]; exact hca c hmem
    · exact hca x h.1
  · split
    · exact ⟨hch, (cacheSound_iff s).mpr hca⟩
    · rename_i off r hw
      split
      · exact ⟨hch, (cacheSound_iff s).mpr hca⟩
      · rename_i hsz
        refine Sound_congr s _ _ (by rfl) (by rfl) (by rfl) (by rfl) hch ?_
        intro x hx
        rcases mem_cacheInsert _ _ _ _ hx with h | h
        · rw [h]
          simp only []
          unfold isLive
          rw [← backwardWalk_eq_find, hw]
          simpa using hsz
        · exact hca x h.1

/-- The invariants after an entry was appended and the cache was replaced by
one that holds the identifier of the entry, unless it is an erase marker, and
elements of the former cache with other identifiers. -/
theorem appendRecord_sound (T : Env) (s s2 : System) (id : Nat) (p : List Nat)
    (c : List mfs_cached_id_t) (hgran : 0 < T.gran) (hs : Sound s)
    (h1 : s2.drv.next_offset = (appendRecord T s id p).drv.next_offset)
    (h2 : s2.drv.last_offset = (appendRecord T s id p).drv.last_offset)
    (h3 : (s2.flash.bank s2.drv.current_bank).data =
      ((appendRecord T s id p).flash.bank (appendRecord T s id p).drv.current_bank).data)
    (h4 : s2.drv.cache = c)
    (hc : ∀ x, x ∈ c → (x.id = id ∧ p ≠ []) ∨ (x ∈ s.drv.cache ∧ x.id ≠ id)) : Sound s2 := by
  obtain ⟨hch, hca⟩ := hs
  rw [cacheSound_iff] at hca
  obtain ⟨b1, b2⟩ := appendRecord_chain T s id p hgran hch
  apply Sound_congr (appendRecord T s id p) s2 c h1 h2 h3 h4 b1
  intro x hx
  rw [b2]
  rcases hc x hx with ⟨e1, e2⟩ | ⟨e1, e2⟩
  · rw [if_pos e1.symm]
    simpa using e2
  · rw [if_neg (fun h => e2 h.symm)]
    exact hca x e1

theorem copyRecords_sound (T : Env) (hgran : 0 < T.gran) :
    ∀ (l : List Record) (s s1 : System), (∀ r, r ∈ l → r.payload ≠ []) → Sound s →
      copyRecords T l s = some s1 → Sound s1 := by
  intro l
  induction l with
  | nil =>
    intro s s1 _ hs h
    simp only [copyRecords, Option.some.injEq] at h
    subst h
    exact hs
  | cons r rest ih =>
    intro s s1 hp hs h
    rw [copyRecords] at h
    split at h
    · refine ih _ _ (fun x hx => hp x (List.mem_cons_of_mem _ hx)) ?_ h
      refine appendRecord_sound T s _ r.hdr.id r.payload _ hgran hs (by rfl) (by rfl) (by rfl) (by rfl) ?_
      intro x hx
      rcases mem_cacheInsert _ _ _ _ hx with e | e
      · left
        rw [e]
        exact ⟨rfl, hp r (List.mem_cons_self _ _)⟩
      · right
        exact e
    · cases h

theorem mem_liveRecords :
    ∀ (l : List Record) (r : Record), r ∈ liveRecords l → r ∈ l ∧ r.hdr.size ≠ 0 := by
  intro l
  induction l with
  | nil => intro r h; simp [liveRecords] at h
  | cons a rest ih =>
    intro r h
    rw [liveRecords] at h
    split at h
    · obtain ⟨h1, h2⟩ := ih r h
      exact ⟨List.mem_cons_of_mem _ h1, h2⟩
    · rename_i hn
      rcases List.mem_cons.mp h with e | e
      · subst e
        exact ⟨List.mem_cons_self _ _, fun hz => hn (Or.inl hz)⟩
      · obtain ⟨h1, h2⟩ := ih r e
        exact ⟨List.mem_cons_of_mem _ h1, h2⟩

theorem mem_scanFrom (T : Env) (size : Nat) (data : Nat → Option Record) :
    ∀ (fuel off : Nat) (r : Record), r ∈ scanFrom T size data fuel off →
      r.payload.length = r.hdr.size := by
  intro fuel
  induction fuel with
  | zero => intro off r h; simp [scanFrom] at h
  | succ n ih =>
    intro off r h
    rw [scanFrom] at h
    split at h
    · simp at h
    · rename_i a ha
      split at h
      · rename_i hc
        rcases List.mem_cons.mp h with e | e
        · subst e; exact hc.2.2.1
        · exact ih _ r e
      · simp at h

/-- A compaction that succeeds establishes the invariants, whatever the engine
it started from. -/
theorem compact_sound (T : Env) (s s1 : System) (hpage : 0 < T.page) (hgran : 0 < T.gran)
    (h : compact T s = some s1) : Sound s1 := by
  unfold compact at h
  simp only [] at h
  split at h
  · cases h
  · rename_i s2 hc
    simp only [Option.some.injEq] at h
    subst h
    have h0 := dataStart_pos T hpage
    have hs2 : Sound s2 := by
      refine copyRecords_sound T hgran _ _ s2 ?_ ?_ hc
      · intro r hr
        obtain ⟨m1, m2⟩ := mem_liveRecords _ r hr
        have m3 := mem_scanFrom T _ _ _ _ r m1
        intro he
        rw [he] at m3
        exact m2 m3.symm
      · refine ⟨⟨h0, h0, rfl⟩, rfl⟩
    obtain ⟨_, g2, _⟩ := copyRecords_spec T _ _ _ hc
    simp only [] at g2
    obtain ⟨hch, hca⟩ := hs2
    rw [cacheSound_iff] at hca
    refine Sound_congr s2 _ _ (by rfl) (by rfl) ?_ (by rfl) hch hca
    simp only [g2, bank_setBank_other]

/-- What the writing of an entry leaves: on an error an engine that keeps the
invariants, otherwise the entry appended to such an engine. -/
theorem writeRecord_sound (T : Env) (s : System) (id : Nat) (p : List Nat)
    (hpage : 0 < T.page) (hgran : 0 < T.gran) (hs : Sound s) :
    (MFS_IS_ERROR (writeRecord T s id p).1.toInt = true ∧ Sound (writeRecord T s id p).2) ∨
    (MFS_IS_ERROR (writeRecord T s id p).1.toInt = false ∧
      ∃ sx, Sound sx ∧ (writeRecord T s id p).2 = appendRecord T sx id p) := by
  unfold writeRecord
  split
  · exact Or.inr ⟨rfl, s, hs, rfl⟩
  · split
    · exact Or.inl ⟨rfl, hs⟩
    · rename_i s1 hc
      have h1 := compact_sound T s s1 hpage hgran hc
      split
      · exact Or.inr ⟨rfl, s1, h1, rfl⟩
      · exact Or.inl ⟨rfl, h1⟩

theorem mfsReadRecord_system (T : Env) (s : System) (id : Nat) :
    (mfsReadRecord T s id).2.1 = (findRecord T s id).2 := by
  unfold mfsReadRecord
  split
  · rename_i s1 h; rw [h]
  · rename_i c s1 h
    rw [h]
    split
    · rfl
    · split <;> rfl

theorem mfsUpdateRecord_sound (T : Env) (s : System) (id n : Nat) (buffer : List Nat)
    (hpage : 0 < T.page) (hgran : 0 < T.gran) (hb : buffer.take n ≠ []) (hs : Sound s) :
    Sound (mfsUpdateRecord T s id n buffer).2 := by
  unfold mfsUpdateRecord
  simp only []
  rcases writeRecord_sound T s id (buffer.take n) hpage hgran hs with ⟨e1, e2⟩ | ⟨e1, sx, e2, e3⟩
  · rw [if_pos e1]
    exact e2
  · rw [if_neg (by rw [e1]; decide)]
    simp only []
    refine appendRecord_sound T sx _ id (buffer.take n) _ hgran e2
      (by rw [e3]) (by rw [e3]) (by rw [e3]) (by rfl) ?_
    intro x hx
    rcases mem_cacheInsert _ _ _ _ hx with e | e
    · left
      rw [e]
      exact ⟨rfl, hb⟩
    · right
      rw [e3, (appendRecord_spec T sx id (buffer.take n)).2.2.2.1] at e
      exact e

theorem mfsEraseRecord_sound (T : Env) (s : System) (id : Nat)
    (hpage : 0 < T.page) (hgran : 0 < T.gran) (hs : Sound s) :
    Sound (mfsEraseRecord T s id).2 := by
  have hf := findRecord_sound T s id hs
  unfold mfsEraseRecord
  cases hfr : findRecord T s id with
  | mk fr s1 =>
    rw [hfr] at hf
    simp only [] at hf
    cases fr with
    | none => exact hf
    | some c =>
      simp only []
      rcases writeRecord_sound T s1 id [] hpage hgran hf with ⟨e1, e2⟩ | ⟨e1, sx, e2, e3⟩
      · rw [if_pos e1]
        exact e2
      · rw [if_neg (by rw [e1]; decide)]
        simp only []
        refine appendRecord_sound T sx _ id [] _ hgran e2
          (by rw [e3]) (by rw [e3]) (by rw [e3]) (by rfl) ?_
        intro x hx
        right
        have e := mem_cacheRemove _ _ _ hx
        rw [e3, (appendRecord_spec T sx id []).2.2.2.1] at e
        exact e

/-- Every engine reached from a mount on two erased banks by reads, updates
and erases keeps the invariants of the log and of the record index. -/
theorem reachable_sound (T : Env) (hpage : 0 < T.page) (hgran : 0 < T.gran) (s : System)
    (h : Reachable T s) : Sound s := by
  induction h with
  | mount banks_size =>
    have h0 := dataStart_pos T hpage
    exact ⟨⟨h0, h0, rfl⟩, rfl⟩
  | read s id _ ih =>
    rw [mfsReadRecord_system]
    exact findRecord_sound T s id ih
  | update s id n buffer _ hb ih => exact mfsUpdateRecord_sound T s id n buffer hpage hgran hb ih
  | erase s id _ ih => exact mfsEraseRecord_sound T s id hpage hgran ih

/-! ### Claims on the record store -/

/-- C12: on an engine whose log starts after the bank header, as it does on
every engine reached from a mount (`reachable_sound`), when `mfsUpdateRecord` of the non-empty bytes `b1` under
an identifier returns no error, the following `mfsReadRecord` of the
identifier returns `MFS_NO_ERROR`, sets `*np` to the length of `b1` and fills
the buffer with `b1`; and when a second update of the identifier with the
non-empty bytes `b2` returns no error either, the read gives `b2`. -/
theorem mfs_update_read (T : Env) (s : System) (id : Nat) (b1 b2 : List Nat)
    (hpage : 0 < T.page) (hnext : 0 < s.drv.next_offset) (hb1 : b1 ≠ []) (hb2 : b2 ≠ [])
    (hok1 : MFS_IS_ERROR (mfsUpdateRecord T s id b1.length b1).1.toInt = false) :
    ((mfsReadRecord T (mfsUpdateRecord T s id b1.length b1).2 id).1 = .MFS_NO_ERROR ∧
      (mfsReadRecord T (mfsUpdateRecord T s id b1.length b1).2 id).2.2
        = some (b1.length, b1)) ∧
    (MFS_IS_ERROR (mfsUpdateRecord T (mfsUpdateRecord T s id b1.length b1).2 id
        b2.length b2).1.toInt = false →
      (mfsReadRecord T (mfsUpdateRecord T (mfsUpdateRecord T s id b1.length b1).2 id
        b2.length b2).2 id).1 = .MFS_NO_ERROR ∧
      (mfsReadRecord T (mfsUpdateRecord T (mfsUpdateRecord T s id b1.length b1).2 id
        b2.length b2).2 id).2.2 = some (b2.length, b2)) := by
  obtain ⟨h1, h2⟩ := update_then_read T s id b1 hpage hnext hb1 hok1
  refine ⟨h2, ?_⟩
  intro hok2
  exact (update_then_read T _ id b2 hpage h1 hb2 hok2).2

/-- C12, witness: the record 1 written twice on the sample engine just
formatted. -/
theorem mfs_update_read_witness :
    ((mfsReadRecord sampleEnv (mfsUpdateRecord sampleEnv sampleFresh 1
        [104, 105].length [104, 105]).2 1).1 = .MFS_NO_ERROR ∧
      (mfsReadRecord sampleEnv (mfsUpdateRecord sampleEnv sampleFresh 1
        [104, 105].length [104, 105]).2 1).2.2 = some ([104, 105].length, [104, 105])) ∧
    (MFS_IS_ERROR (mfsUpdateRecord sampleEnv (mfsUpdateRecord sampleEnv sampleFresh 1
        [104, 105].length [104, 105]).2 1 [7].length [7]).1.toInt = false →
      (mfsReadRecord sampleEnv (mfsUpdateRecord sampleEnv (mfsUpdateRecord sampleEnv
        sampleFresh 1 [104, 105].length [104, 105]).2 1 [7].length [7]).2 1).1
        = .MFS_NO_ERROR ∧
      (mfsReadRecord sampleEnv (mfsUpdateRecord sampleEnv (mfsUpdateRecord sampleEnv
        sampleFresh 1 [104, 105].length [104, 105]).2 1 [7].length [7]).2 1).2.2
        = some ([7].length, [7])) :=
  mfs_update_read sampleEnv sampleFresh 1 [104, 105] [7] (by decide) (by decide) (by decide)
    (by decide) (by decide)

/-- C13: on an engine whose log starts after the bank header, after an update
of an identifier and an erase of it that both returned no error,
`mfsReadRecord` of the identifier returns `MFS_ID_NOT_FOUND` and writes
nothing; and on an engine whose cache holds live identifiers only,
`mfsEraseRecord` of an identifier that is not live returns
`MFS_ID_NOT_FOUND` and leaves the engine as it was. Both conditions on the
engine hold on every engine reached from a mount (`reachable_sound`). -/
theorem mfs_erase_read (T : Env) (s s2 : System) (id id2 : Nat) (b : List Nat)
    (hpage : 0 < T.page) (hnext : 0 < s.drv.next_offset) (hb : b ≠ [])
    (hok1 : MFS_IS_ERROR (mfsUpdateRecord T s id b.length b).1.toInt = false)
    (hok2 : MFS_IS_ERROR
      (mfsEraseRecord T (mfsUpdateRecord T s id b.length b).2 id).1.toInt = false)
    (hcache : cacheSound s2 = true) (hlive : isLive s2 id2 = false) :
    (mfsReadRecord T (mfsEraseRecord T (mfsUpdateRecord T s id b.length b).2 id).2 id).1
      = .MFS_ID_NOT_FOUND ∧
    (mfsReadRecord T (mfsEraseRecord T (mfsUpdateRecord T s id b.length b).2 id).2 id).2.2
      = none ∧
    (mfsEraseRecord T s2 id2).1 = .MFS_ID_NOT_FOUND ∧
    (mfsEraseRecord T s2 id2).2 = s2 := by
  have h1 := (update_then_read T s id b hpage hnext hb hok1).1
  have h2 := erase_then_read T _ id hpage h1 hok2
  have h3 := erase_not_live T s2 id2 hcache hlive
  rw [h2, h3]
  exact ⟨rfl, rfl, rfl, rfl⟩

/-- C13, witness: the record 1 written and erased on the sample engine just
formatted, and the erase of the record 2 on the sample engine in which it has
been erased. -/
theorem mfs_erase_read_witness :
    (mfsReadRecord sampleEnv (mfsEraseRecord sampleEnv (mfsUpdateRecord sampleEnv
      sampleFresh 1 [104, 105].length [104, 105]).2 1).2 1).1 = .MFS_ID_NOT_FOUND ∧
    (mfsReadRecord sampleEnv (mfsEraseRecord sampleEnv (mfsUpdateRecord sampleEnv
      sampleFresh 1 [104, 105].length [104, 105]).2 1).2 1).2.2 = none ∧
    (mfsEraseRecord sampleEnv sampleErased 2).1 = .MFS_ID_NOT_FOUND ∧
    (mfsEraseRecord sampleEnv sampleErased 2).2 = sampleErased :=
  mfs_erase_read sampleEnv sampleFresh sampleErased 1 2 [104, 105] (by decide) (by decide)
    (by decide) (by decide) (by decide) (by decide) (by decide)

end MFS
